import Mathlib

/-!
Verification of the PICA vertex-shader JIT compiler
(`src/video_core/shader/shader_jit_x64.cpp`).

The development is a shallow embedding of the compiler:

* a value-level model of the SSE lane operations the emitted code uses
  (`F32`, `f32mul`, `sanitizedMul`, `maxpsLane`, the masked destination
  merge paths, the MOVA integer conversion, the LOOP register loop);
* an emission-level model of the compile pass itself: each
  `JitShader::Compile_*` member function becomes a Lean function from
  compiler state to compiler state that appends the native operations it
  emits (`NOp`) and the host-side log messages it produces (`LogMsg`);
* a small operational semantics (`mstep`) for the stack/control subset of
  the emitted operations, used for the call/return protocol claims.

Machine integers are modelled as `Nat`/`Int` with explicit `% 2 ^ w`
where the source relies on wraparound.
-/

namespace ShaderJit

/-! ## Value model of single-precision lanes

The emitted code operates on IEEE-754 binary32 lanes.  The claims under
verification only distinguish NaN-ness, signed zeroes, infinities and
ordinary finite values, so a lane is modelled as an inductive value:
`fin sign mag` is a finite number of magnitude `mag ≥ 0` (both signed
zeroes are `fin s 0`), `inf sign` an infinity, `nan` any NaN.  Rounding
and overflow of finite products are immaterial to every claim (they never
create or destroy a NaN) and are not modelled. -/

inductive F32 where
  | nan : F32
  | inf (sign : Bool) : F32
  | fin (sign : Bool) (mag : ℚ) : F32
deriving DecidableEq, Repr

def F32.isNaN : F32 → Bool
  | .nan => true
  | _ => false

/-- IEEE-754 multiplication on the modelled lanes: NaN propagates, and
zero times infinity is NaN (`mulps` semantics). -/
def f32mul : F32 → F32 → F32
  | .nan, _ => .nan
  | _, .nan => .nan
  | .inf s1, .inf s2 => .inf (xor s1 s2)
  | .inf s1, .fin s2 m2 => if m2 = 0 then .nan else .inf (xor s1 s2)
  | .fin s1 m1, .inf s2 => if m1 = 0 then .nan else .inf (xor s1 s2)
  | .fin s1 m1, .fin s2 m2 => .fin (xor s1 s2) (m1 * m2)

/-- Numeric value of a non-NaN lane in the extended rationals
(`⊥` is negative infinity, `⊤` positive infinity); used to state order
properties.  NaN is mapped to an arbitrary value and always guarded. -/
def F32.toVal : F32 → WithBot (WithTop ℚ)
  | .nan => 0
  | .inf true => ⊥
  | .inf false => ((⊤ : WithTop ℚ) : WithBot (WithTop ℚ))
  | .fin s m => (((if s then -m else m : ℚ) : WithTop ℚ) : WithBot (WithTop ℚ))

/-- One lane of `cmpltps`: an ordered compare, false whenever either
operand is NaN. -/
def cmpltLane (a b : F32) : Bool :=
  if a.isNaN || b.isNaN then false else decide (a.toVal < b.toVal)

/-- One lane of `cmpordps`: true (an all-ones mask lane) when neither
operand is NaN. -/
def cmpordLane (a b : F32) : Bool := !a.isNaN && !b.isNaN

/-- One lane of `cmpunordps`: true when either operand is NaN. -/
def cmpunordLane (a b : F32) : Bool := a.isNaN || b.isNaN

/-- Lane semantics of `JitShader::Compile_SanitizedMul` (lines 304-315):

    movaps scratch, src1
    cmpordps scratch, src2      -- scratch := ord-mask(src1, src2)
    mulps src1, src2            -- src1 := src1 * src2
    movaps src2, src1
    cmpunordps src2, src2       -- src2 := nan-mask(product)
    xorps scratch, src2
    andps src1, scratch         -- keep product where mask is ones, else +0

An all-zero mask lane ANDed into the product produces the +0.0 bit
pattern. -/
def sanitizedMul (a b : F32) : F32 :=
  let scratch := cmpordLane a b
  let prod := f32mul a b
  let nanmask := cmpunordLane prod prod
  let mask := xor scratch nanmask
  if mask then prod else .fin false 0

/-- Lane semantics of `maxps src1, src2` (Compile_MAX, line 512): the
first operand is returned only when it compares strictly greater, so any
NaN (and equal values, including signed zeroes) yields the second
operand. -/
def maxpsLane (a b : F32) : F32 := if cmpltLane b a then a else b

/-- Lane semantics of `minps src1, src2` (Compile_MIN, line 520). -/
def minpsLane (a b : F32) : F32 := if cmpltLane a b then a else b

/-! ## Vectors and the masked destination merge -/

/-- A 128-bit SIMD register as four lanes.  The merge paths only move
lanes around, so they are modelled polymorphically in the lane type. -/
def Vec4 (α : Type) : Type := Fin 4 → α

/-- Component `n % 4` of a vector (2-bit field of a shuffle immediate). -/
def Vec4.sel {α : Type} (v : Vec4 α) (n : Nat) : α := v ⟨n % 4, Nat.mod_lt _ (by omega)⟩

/-- `shufps a, b, imm`: the low two result lanes select from the first
operand, the high two from the second, by 2-bit fields of `imm`. -/
def shufpsV {α : Type} (a b : Vec4 α) (imm : Nat) : Vec4 α :=
  fun i =>
    match i with
    | 0 => a.sel (imm &&& 3)
    | 1 => a.sel ((imm >>> 2) &&& 3)
    | 2 => b.sel ((imm >>> 4) &&& 3)
    | 3 => b.sel ((imm >>> 6) &&& 3)

/-- `unpckhps a, b`: interleave the high lanes. -/
def unpckhpsV {α : Type} (a b : Vec4 α) : Vec4 α :=
  fun i =>
    match i with
    | 0 => a 2
    | 1 => b 2
    | 2 => a 3
    | 3 => b 3

/-- `unpcklps a, b`: interleave the low lanes. -/
def unpcklpsV {α : Type} (a b : Vec4 α) : Vec4 α :=
  fun i =>
    match i with
    | 0 => a 0
    | 1 => b 0
    | 2 => a 1
    | 3 => b 1

/-- `blendps dst, src, imm`: lane `j` comes from `src` iff bit `j` of
`imm` is set. -/
def blendpsV {α : Type} (dst src : Vec4 α) (imm : Nat) : Vec4 α :=
  fun i => if imm.testBit i.val then src i else dst i

/-- `SwizzlePattern::DestComponentEnabled(comp)`: bit `3 - comp` of the
4-bit destination mask (component 0 is stored in the high bit). -/
def destComponentEnabled (mask : Nat) (comp : Nat) : Bool :=
  mask &&& (8 >>> comp) != 0

/-- The `blendps` immediate computed by Compile_DestEnable
(lines 282-283) from the 4-bit destination mask. -/
def blendImm (mask : Nat) : Nat :=
  ((mask &&& 1) <<< 3) ||| ((mask &&& 8) >>> 3) ||| ((mask &&& 2) <<< 1) |||
    ((mask &&& 4) >>> 1)

/-- The `shufps` selector computed by Compile_DestEnable (lines 292-295)
for the manual merge path. -/
def destShufSel (mask : Nat) : Nat :=
  ((if destComponentEnabled mask 0 then 1 else 0) <<< 0) |||
    ((if destComponentEnabled mask 1 then 3 else 2) <<< 2) |||
    ((if destComponentEnabled mask 2 then 0 else 1) <<< 4) |||
    ((if destComponentEnabled mask 3 then 2 else 3) <<< 6)

/-- The SSE4.1 merge path of Compile_DestEnable (lines 279-284): load the
previous destination, blend the enabled lanes of the result over it. -/
def destEnableBlend {α : Type} (mask : Nat) (prior res : Vec4 α) : Vec4 α :=
  blendpsV prior res (blendImm mask)

/-- The manual merge path of Compile_DestEnable (lines 286-296) for hosts
without `blendps`: unpack source and destination lanes pairwise, then
shuffle the enabled components into place. -/
def destEnableShuffle {α : Type} (mask : Nat) (prior res : Vec4 α) : Vec4 α :=
  let scratch2 := unpckhpsV res prior
  let scratch := unpcklpsV prior res
  shufpsV scratch scratch2 (destShufSel mask)

/-- Value semantics of `JitShader::Compile_DestEnable` (lines 255-302):
an all-enabled mask stores the result directly, otherwise the previous
destination is merged in on one of the two host paths. -/
def destEnableValue {α : Type} (sse41 : Bool) (mask : Nat) (prior res : Vec4 α) : Vec4 α :=
  if mask == 0xf then res
  else if sse41 then destEnableBlend mask prior res
  else destEnableShuffle mask prior res

/-- The selector-field reversal applied before `shufps` in
Compile_SwizzleSrc (line 242). -/
def selReverse (sel : Nat) : Nat :=
  ((sel &&& 0xc0) >>> 6) ||| ((sel &&& 3) <<< 6) ||| ((sel &&& 0xc) <<< 2) |||
    ((sel &&& 0x30) >>> 2)

/-- Sign-bit flip of one lane (`xorps` with the all-sign-bits constant). -/
def negLane : F32 → F32
  | .nan => .nan
  | .inf s => .inf (!s)
  | .fin s m => .fin (!s) m

/-- Value semantics of the swizzle part of `JitShader::Compile_SwizzleSrc`
(lines 236-252): the raw selector `0x1b` means no shuffle is emitted,
otherwise the loaded vector is shuffled by the reversed selector; the
negate flag flips all sign bits. -/
def swizzleSrcValue (sel : Nat) (neg : Bool) (v : Vec4 F32) : Vec4 F32 :=
  let d := if sel == 0x1b then v else shufpsV v v (selReverse sel)
  if neg then fun i => negLane (d i) else d

/-- Value semantics of `JitShader::Compile_MOV` (lines 569-572): swizzle
the source, then store under the destination mask. -/
def movValue (sse41 : Bool) (sel : Nat) (neg : Bool) (mask : Nat)
    (v prior : Vec4 F32) : Vec4 F32 :=
  destEnableValue sse41 mask prior (swizzleSrcValue sel neg v)

/-! ## MOVA integer conversion -/

/-- One lane of `cvttps2dq`: truncation toward zero; NaN, infinities and
out-of-range values produce the integer indefinite `0x80000000`. -/
def cvttLane : F32 → Int
  | .nan => -(2 ^ 31)
  | .inf _ => -(2 ^ 31)
  | .fin s m =>
    let t : Int := if s then -(⌊m⌋) else ⌊m⌋
    if t < -(2 ^ 31) || 2 ^ 31 - 1 < t then -(2 ^ 31) else t

/-- The unsigned 32-bit pattern of an integer lane. -/
def u32 (x : Int) : Nat := (x % (2 ^ 32 : Int)).toNat

/-- `movsxd`: sign-extension of a 32-bit pattern to a 64-bit register. -/
def sext32 (n : Nat) : Int := if n < 2 ^ 31 then (n : Int) else (n : Int) - 2 ^ 32

/-- Register semantics of `JitShader::Compile_MOVA` (lines 524-567) on the
two address-offset accumulators: lanes 0/1 of the swizzled source are
truncated to 32-bit integers (`cvttps2dq`), packed into `rax` (`movq`),
then each mask-enabled lane among the first two is sign-extended and
multiplied by 16 into its accumulator.  Disabled accumulators keep their
value, and with neither lane enabled the handler is a no-op. -/
def movaRegs (en0 en1 : Bool) (v : Vec4 F32) (a0 a1 : Int) : Int × Int :=
  if !en0 && !en1 then (a0, a1)
  else
    let rax : Nat := u32 (cvttLane (v 0)) + u32 (cvttLane (v 1)) * 2 ^ 32
    if en0 && en1 then
      (sext32 (rax % 2 ^ 32) * 16, sext32 ((rax >>> 32) % 2 ^ 32) * 16)
    else if en0 then (sext32 (rax % 2 ^ 32) * 16, a1)
    else (a0, sext32 ((rax >>> 32) % 2 ^ 32) * 16)

/-! ## Runtime semantics of the emitted LOOP construct

`JitShader::Compile_LOOP` (lines 722-753) emits

    mov LOOPCOUNT, dword[SETUP + off]
    mov LOOPCOUNT_REG, LOOPCOUNT ; shr 4 ; and 0xFF0   -- start * 16
    mov LOOPINC, LOOPCOUNT ; shr 12 ; and 0xFF0        -- increment * 16
    movzx LOOPCOUNT, LOOPCOUNT.cvt8 ; add LOOPCOUNT, 1 -- count + 1
  l_loop_start:
    <body>
    add LOOPCOUNT_REG, LOOPINC
    sub LOOPCOUNT, 1
    jnz l_loop_start

The runtime loop is modelled over the three 32-bit registers; the body is
instrumented to record the accumulator value it observes. -/

structure LoopSt where
  reg : Nat
  inc : Nat
  count : Nat
  trace : List Nat
deriving DecidableEq, Repr

/-- The loop body as an observer: records the accumulator it runs with. -/
def loopBody (s : LoopSt) : LoopSt := { s with trace := s.trace ++ [s.reg] }

/-- The loop tail: `add LOOPCOUNT_REG, LOOPINC; sub LOOPCOUNT, 1` on
32-bit registers. -/
def loopStep (s : LoopSt) : LoopSt :=
  { s with
    reg := (s.reg + s.inc) % 2 ^ 32
    count := (s.count + (2 ^ 32 - 1)) % 2 ^ 32 }

/-- The emitted do-while loop: run the body and the tail, repeat while
`LOOPCOUNT` is nonzero (`jnz`).  Fuel-indexed for termination. -/
def loopRun : Nat → LoopSt → LoopSt
  | 0, s => s
  | fuel + 1, s =>
    let s' := loopStep (loopBody s)
    if s'.count = 0 then s' else loopRun fuel s'

/-- The register state set up by the decode sequence from the 32-bit
integer uniform `u`. -/
def loopInitSt (u : Nat) : LoopSt :=
  { reg := (u >>> 4) &&& 0xFF0
    inc := (u >>> 12) &&& 0xFF0
    count := (u &&& 0xFF) + 1
    trace := [] }

/-! ## Instruction and swizzle records

The bytecode field layout (`nihstro/shader_bytecode.h`) is an external
collaborator: the compiler consumes already-decoded fields.  An
instruction is therefore modelled as the record of decoded fields the
compiler reads, and the swizzle table as decoded patterns. -/

inductive CondOp where
  | or : CondOp
  | and : CondOp
  | justX : CondOp
  | justY : CondOp
deriving DecidableEq, Repr, Inhabited

/-- The `flow_control` view of an instruction word. -/
structure FlowCtrl where
  dest_offset : Nat
  num_instructions : Nat
  op : CondOp
  refx : Bool
  refy : Bool
  bool_uniform_id : Nat
  int_uniform_id : Nat
deriving DecidableEq, Repr, Inhabited

/-- The decoded fields of one instruction word that the compile pass
reads.  `opcode` is the 6-bit opcode value (bits 26-31 of the word). -/
structure Instr where
  opcode : Nat
  flow : FlowCtrl
  operand_desc_id : Nat
  address_register_index : Nat
deriving DecidableEq, Repr, Inhabited

/-- One decoded entry of `g_state.vs.swizzle_data`. -/
structure SwizzlePattern where
  negate_src1 : Bool
  negate_src2 : Bool
  negate_src3 : Bool
  dest_mask : Nat
  sel1 : Nat
  sel2 : Nat
  sel3 : Nat
deriving DecidableEq, Repr, Inhabited

/-- `SwizzlePattern::GetRawSelector(src_num)` for `src_num` in 1..3. -/
def SwizzlePattern.rawSelector (sw : SwizzlePattern) (n : Nat) : Nat :=
  if n == 1 then sw.sel1 else if n == 2 then sw.sel2 else sw.sel3

/-- The per-source negate flag (`negate_src1` .. `negate_src3`). -/
def SwizzlePattern.negateOf (sw : SwizzlePattern) (n : Nat) : Bool :=
  if n == 1 then sw.negate_src1 else if n == 2 then sw.negate_src2 else sw.negate_src3

/-- Condition specification the flow-control instructions carry
(`flow_control.op`, `refx`, `refy`). -/
structure CondSpec where
  op : CondOp
  refx : Bool
  refy : Bool
deriving DecidableEq, Repr

def condSpecOf (i : Instr) : CondSpec :=
  { op := i.flow.op, refx := i.flow.refx, refy := i.flow.refy }

/-- Decoder interface (`OpCode::Id`): effective opcode is MAD or MADI. -/
def isMadOp (op : Nat) : Bool := 0x30 ≤ op && op < 0x40

/-- Decoder interface (`OpCode::Info::SrcInversed` subtype flag): the
opcodes whose second/third sources use the alternate addressing form
(DPHI, SGEI, SLTI, MADI). -/
def srcInversed (op : Nat) : Bool :=
  op == 0x18 || op == 0x1A || op == 0x1B || (0x30 ≤ op && op < 0x38)

/-- `CALL`, `CALLC`, `CALLU` opcode values (0x24-0x26). -/
def isCallClass (op : Nat) : Bool := op == 0x24 || op == 0x25 || op == 0x26

/-! ## Emitted native operations

Each constructor stands for a contiguous block of host instructions a
compile function emits; immediates that matter to the claims (labels,
stack adjustments, message identities, shuffle selectors) are carried
explicitly, SIMD arithmetic is carried as a tag. -/

/-- A label: one forward-resolvable label per instruction offset
(`instruction_labels`), plus function-local Xbyak labels numbered by a
fresh counter. -/
inductive Lbl where
  | instr (off : Nat) : Lbl
  | loc (n : Nat) : Lbl
deriving DecidableEq, Repr

/-- Message identity of a `Compile_Assert` diagnostic. -/
inductive AssertMsg where
  | backwardIf : AssertMsg
  | backwardLoop : AssertMsg
  | nestedLoop : AssertMsg
deriving DecidableEq, Repr

/-- A host-side (compile-time) log message. -/
inductive LogMsg where
  | unhandled (opcode : Nat) : LogMsg
deriving DecidableEq, Repr

inductive NOp where
  /-- `L(label)`: bind a label here (emits no machine code). -/
  | bind (l : Lbl) : NOp
  /-- `mov ABI_PARAM1, msg; call LogCritical` emitted by Compile_Assert
  when its compile-time condition fails (lines 167-172): a run-time call
  into the logger from the generated code. -/
  | logCall (m : AssertMsg) : NOp
  /-- `push qword, imm`: the synthetic return offset of a CALL. -/
  | push (v : Nat) : NOp
  /-- `call label`. -/
  | callL (l : Lbl) : NOp
  /-- `add rsp, n`. -/
  | addRsp (n : Nat) : NOp
  /-- The Compile_Return check (lines 780-790): `mov rax, [rsp+8];
  cmp eax, off; jnz skip; ret; skip:`. -/
  | retChk (off : Nat) : NOp
  | jz (l : Lbl) : NOp
  | jnz (l : Lbl) : NOp
  | jmpL (l : Lbl) : NOp
  /-- Compile_EvaluateCondition (lines 317-346): leaves the evaluated
  condition in `eax`, so ZF is set iff the condition is false. -/
  | setZCond (c : CondSpec) : NOp
  /-- Compile_UniformCondition (lines 348-351): `cmp byte[SETUP+off], 0`;
  ZF is set iff the boolean uniform is false. -/
  | setZUniform (uid : Nat) : NOp
  /-- Compile_END (lines 598-601): restore callee-saved registers, `ret`. -/
  | endRet : NOp
  /-- `movaps dest, [ptr + offset]` source load; `aidx` is the address
  register used for relative indexing (0 = flat load). -/
  | loadSrc (aidx : Nat) : NOp
  /-- `shufps` with the given immediate. -/
  | shuf (sel : Nat) : NOp
  /-- `xorps dest, NEGBIT`. -/
  | xorNeg : NOp
  /-- `movaps SCRATCH, [STATE + dest]`: read the previous destination. -/
  | loadDst : NOp
  /-- `movaps [STATE + dest], reg`: the only write to per-invocation
  output state the compiler ever emits. -/
  | storeDst : NOp
  /-- `blendps` with the given immediate. -/
  | blend (imm : Nat) : NOp
  | unpckh : NOp
  | unpckl : NOp
  /-- `addps`. -/
  | addps : NOp
  /-- The three-instruction sanitized-multiply block (Compile_SanitizedMul). -/
  | sanMul : NOp
  | cmple : NOp
  | cmplt : NOp
  /-- `andps reg, ONE`. -/
  | andOne : NOp
  /-- `roundps _, _, floor` (SSE4.1 floor). -/
  | roundFlr : NOp
  /-- `cvttps2dq`. -/
  | cvtt : NOp
  /-- `cvtdq2ps`. -/
  | cvtdq : NOp
  | maxps : NOp
  | minps : NOp
  | rcpss : NOp
  | rsqrtss : NOp
  | movss : NOp
  /-- `movq rax, xmm`: move the low two lanes into `rax` (MOVA). -/
  | movq : NOp
  /-- MOVA sign-extend-and-scale block for address register `k`
  (`movsxd`/`shr`/`shl`, lines 540-565). -/
  | sxShift (k : Nat) : NOp
  /-- Out-of-line transcendental call (0 = exp2f, 1 = log2f) wrapped in
  push/pop of the persistent caller-saved registers. -/
  | farCall (tag : Nat) : NOp
  /-- The DPH force-W-to-one block (blend with ONE or unpack sequence). -/
  | setW1 : NOp
  /-- Compile_CMP compare block (lines 630-671): performs the two
  comparisons and writes COND0/COND1. -/
  | cmpSet (opx opy : Nat) : NOp
  /-- The LOOP register decode block (lines 732-741) reading integer
  uniform `uid`. -/
  | loopInit (uid : Nat) : NOp
  /-- The LOOP tail (lines 748-750): `add LOOPCOUNT_REG, LOOPINC;
  sub LOOPCOUNT, 1; jnz l`. -/
  | loopTail (l : Lbl) : NOp
  /-- The function prologue of Compile (lines 847-865): save registers,
  accept arguments, zero accumulators, load the SIMD constants. -/
  | prologue : NOp
  /-- `jmp ABI_PARAM3`: jump to the caller-supplied entry point. -/
  | jmpEntry : NOp
deriving DecidableEq, Repr

/-! ## Compiler state and per-opcode emission -/

/-- Compiler transient state: `pc` is `program_counter`, `looping` the
single-active-loop flag, `fresh` numbers function-local labels, `ops` is
the code emitted so far, `logs` the host-side diagnostics. -/
structure CState where
  pc : Nat
  looping : Bool
  fresh : Nat
  ops : List NOp
  logs : List LogMsg
deriving DecidableEq, Repr

/-- Read-only compile environment: the program, the swizzle table, the
host capability bit, and the `return_offsets` member vector. -/
structure CEnv where
  prog : List Instr
  swz : Nat → SwizzlePattern
  sse41 : Bool
  return_offsets : List Nat

/-- `JitShader::Compile_Assert` (lines 167-172): when the compile-time
condition fails, emit a call to `LogCritical` into the generated code and
keep compiling.  It does not abort the compilation and does not log at
compile time. -/
def assertEmit (condition : Bool) (m : AssertMsg) (st : CState) : CState :=
  if condition then st else { st with ops := st.ops ++ [NOp.logCall m] }

/-- Emission of `JitShader::Compile_SwizzleSrc` (lines 181-253): load the
source (address-indexed when this slot is the offset slot and a nonzero
address register is selected), shuffle by the reversed selector unless it
is the identity `0x1b`, and flip sign bits when the negate flag is set. -/
def Compile_SwizzleSrc_ops (env : CEnv) (i : Instr) (srcNum : Nat) : List NOp :=
  let madI := isMadOp i.opcode
  let offsetSrc :=
    if srcInversed i.opcode then (if madI then 3 else 2) else (if madI then 2 else 1)
  let aidx := i.address_register_index
  let load := NOp.loadSrc (if srcNum == offsetSrc && aidx != 0 then aidx else 0)
  let sw := env.swz i.operand_desc_id
  let sel := sw.rawSelector srcNum
  [load] ++ (if sel == 0x1b then [] else [NOp.shuf (selReverse sel)]) ++
    (if sw.negateOf srcNum then [NOp.xorNeg] else [])

/-- Emission of `JitShader::Compile_DestEnable` (lines 255-302). -/
def Compile_DestEnable_ops (env : CEnv) (i : Instr) : List NOp :=
  let sw := env.swz i.operand_desc_id
  if sw.dest_mask == 0xf then [NOp.storeDst]
  else
    [NOp.loadDst] ++
      (if env.sse41 then [NOp.blend (blendImm sw.dest_mask)]
       else [NOp.unpckh, NOp.unpckl, NOp.shuf (destShufSel sw.dest_mask)]) ++
      [NOp.storeDst]

def Compile_ADD_ops (env : CEnv) (i : Instr) : List NOp :=
  Compile_SwizzleSrc_ops env i 1 ++ Compile_SwizzleSrc_ops env i 2 ++ [NOp.addps] ++
    Compile_DestEnable_ops env i

def Compile_DP3_ops (env : CEnv) (i : Instr) : List NOp :=
  Compile_SwizzleSrc_ops env i 1 ++ Compile_SwizzleSrc_ops env i 2 ++
    [NOp.sanMul, NOp.shuf 0x55, NOp.shuf 0xAA, NOp.shuf 0x00, NOp.addps, NOp.addps] ++
    Compile_DestEnable_ops env i

def Compile_DP4_ops (env : CEnv) (i : Instr) : List NOp :=
  Compile_SwizzleSrc_ops env i 1 ++ Compile_SwizzleSrc_ops env i 2 ++
    [NOp.sanMul, NOp.shuf 0xB1, NOp.addps, NOp.shuf 0x1B, NOp.addps] ++
    Compile_DestEnable_ops env i

def Compile_DPH_ops (env : CEnv) (i : Instr) : List NOp :=
  Compile_SwizzleSrc_ops env i 1 ++ Compile_SwizzleSrc_ops env i 2 ++
    [NOp.setW1, NOp.sanMul, NOp.shuf 0xB1, NOp.addps, NOp.shuf 0x1B, NOp.addps] ++
    Compile_DestEnable_ops env i

def Compile_EX2_ops (env : CEnv) (i : Instr) : List NOp :=
  Compile_SwizzleSrc_ops env i 1 ++ [NOp.movss, NOp.farCall 0, NOp.shuf 0x00] ++
    Compile_DestEnable_ops env i

def Compile_LG2_ops (env : CEnv) (i : Instr) : List NOp :=
  Compile_SwizzleSrc_ops env i 1 ++ [NOp.movss, NOp.farCall 1, NOp.shuf 0x00] ++
    Compile_DestEnable_ops env i

def Compile_MUL_ops (env : CEnv) (i : Instr) : List NOp :=
  Compile_SwizzleSrc_ops env i 1 ++ Compile_SwizzleSrc_ops env i 2 ++ [NOp.sanMul] ++
    Compile_DestEnable_ops env i

def Compile_SGE_ops (env : CEnv) (i : Instr) : List NOp :=
  Compile_SwizzleSrc_ops env i 1 ++ Compile_SwizzleSrc_ops env i 2 ++
    [NOp.cmple, NOp.andOne] ++ Compile_DestEnable_ops env i

def Compile_SLT_ops (env : CEnv) (i : Instr) : List NOp :=
  Compile_SwizzleSrc_ops env i 1 ++ Compile_SwizzleSrc_ops env i 2 ++
    [NOp.cmplt, NOp.andOne] ++ Compile_DestEnable_ops env i

def Compile_FLR_ops (env : CEnv) (i : Instr) : List NOp :=
  Compile_SwizzleSrc_ops env i 1 ++
    (if env.sse41 then [NOp.roundFlr] else [NOp.cvtt, NOp.cvtdq]) ++
    Compile_DestEnable_ops env i

def Compile_MAX_ops (env : CEnv) (i : Instr) : List NOp :=
  Compile_SwizzleSrc_ops env i 1 ++ Compile_SwizzleSrc_ops env i 2 ++ [NOp.maxps] ++
    Compile_DestEnable_ops env i

def Compile_MIN_ops (env : CEnv) (i : Instr) : List NOp :=
  Compile_SwizzleSrc_ops env i 1 ++ Compile_SwizzleSrc_ops env i 2 ++ [NOp.minps] ++
    Compile_DestEnable_ops env i

/-- Emission of `JitShader::Compile_MOVA` (lines 524-567): a no-op when
neither of the first two destination components is enabled; otherwise
load and truncate the source, move the low two integer lanes to `rax`,
and sign-extend/scale the enabled ones into the address registers. -/
def Compile_MOVA_ops (env : CEnv) (i : Instr) : List NOp :=
  let sw := env.swz i.operand_desc_id
  let en0 := destComponentEnabled sw.dest_mask 0
  let en1 := destComponentEnabled sw.dest_mask 1
  if !en0 && !en1 then []
  else
    Compile_SwizzleSrc_ops env i 1 ++ [NOp.cvtt, NOp.movq] ++
      (if en0 && en1 then [NOp.sxShift 0, NOp.sxShift 1]
       else if en0 then [NOp.sxShift 0]
       else [NOp.sxShift 1])

def Compile_MOV_ops (env : CEnv) (i : Instr) : List NOp :=
  Compile_SwizzleSrc_ops env i 1 ++ Compile_DestEnable_ops env i

def Compile_RCP_ops (env : CEnv) (i : Instr) : List NOp :=
  Compile_SwizzleSrc_ops env i 1 ++ [NOp.rcpss, NOp.shuf 0x00] ++
    Compile_DestEnable_ops env i

def Compile_RSQ_ops (env : CEnv) (i : Instr) : List NOp :=
  Compile_SwizzleSrc_ops env i 1 ++ [NOp.rsqrtss, NOp.shuf 0x00] ++
    Compile_DestEnable_ops env i

def Compile_CMP_ops (env : CEnv) (i : Instr) (opx opy : Nat) : List NOp :=
  Compile_SwizzleSrc_ops env i 1 ++ Compile_SwizzleSrc_ops env i 2 ++
    [NOp.cmpSet opx opy]

/-- Emission of `JitShader::Compile_CALL` (lines 603-612): push the
synthetic return offset, call the target label, discard the pushed
offset. -/
def Compile_CALL_ops (i : Instr) : List NOp :=
  [NOp.push (i.flow.dest_offset + i.flow.num_instructions),
   NOp.callL (Lbl.instr i.flow.dest_offset), NOp.addRsp 8]

/-- Emission of `JitShader::Compile_JMP` (lines 755-772). -/
def Compile_JMP_ops (i : Instr) : List NOp :=
  let condOps :=
    if i.opcode == 0x2C then [NOp.setZCond (condSpecOf i)]
    else if i.opcode == 0x2D then [NOp.setZUniform i.flow.bool_uniform_id]
    else []
  let inverted := i.opcode == 0x2D && i.flow.num_instructions % 2 == 1
  condOps ++
    [if inverted then NOp.jz (Lbl.instr i.flow.dest_offset)
     else NOp.jnz (Lbl.instr i.flow.dest_offset)]

/-- Dispatch tags: one per distinct member function in `instr_table`. -/
inductive Handler where
  | add | dp3 | dp4 | dph | ex2 | lg2 | mul | sge | slt | flr
  | maxH | minH | rcp | rsq | mova | mov | nop | endH
  | call | callc | callu | ifH | loopH | jmp | cmp | mad
deriving DecidableEq, Repr

/-- The 64-entry dispatch table (lines 35-100); `none` entries are the
null pointers of the source table. -/
def instr_table : List (Option Handler) :=
  [some .add,   -- 0x00 add
   some .dp3,   -- 0x01 dp3
   some .dp4,   -- 0x02 dp4
   some .dph,   -- 0x03 dph
   none,        -- 0x04 unknown
   some .ex2,   -- 0x05 ex2
   some .lg2,   -- 0x06 lg2
   none,        -- 0x07 unknown
   some .mul,   -- 0x08 mul
   some .sge,   -- 0x09 sge
   some .slt,   -- 0x0a slt
   some .flr,   -- 0x0b flr
   some .maxH,  -- 0x0c max
   some .minH,  -- 0x0d min
   some .rcp,   -- 0x0e rcp
   some .rsq,   -- 0x0f rsq
   none,        -- 0x10 unknown
   none,        -- 0x11 unknown
   some .mova,  -- 0x12 mova
   some .mov,   -- 0x13 mov
   none,        -- 0x14 unknown
   none,        -- 0x15 unknown
   none,        -- 0x16 unknown
   none,        -- 0x17 unknown
   some .dph,   -- 0x18 dphi
   none,        -- 0x19 unknown
   some .sge,   -- 0x1a sgei
   some .slt,   -- 0x1b slti
   none,        -- 0x1c unknown
   none,        -- 0x1d unknown
   none,        -- 0x1e unknown
   none,        -- 0x1f unknown
   none,        -- 0x20 unknown
   some .nop,   -- 0x21 nop
   some .endH,  -- 0x22 end
   none,        -- 0x23 break
   some .call,  -- 0x24 call
   some .callc, -- 0x25 callc
   some .callu, -- 0x26 callu
   some .ifH,   -- 0x27 ifu
   some .ifH,   -- 0x28 ifc
   some .loopH, -- 0x29 loop
   none,        -- 0x2a emit
   none,        -- 0x2b sete
   some .jmp,   -- 0x2c jmpc
   some .jmp,   -- 0x2d jmpu
   some .cmp,   -- 0x2e cmp
   some .cmp,   -- 0x2f cmp
   some .mad, some .mad, some .mad, some .mad,  -- 0x30-0x33 madi
   some .mad, some .mad, some .mad, some .mad,  -- 0x34-0x37 madi
   some .mad, some .mad, some .mad, some .mad,  -- 0x38-0x3b mad
   some .mad, some .mad, some .mad, some .mad]  -- 0x3c-0x3f mad

def Compile_MAD_ops (env : CEnv) (i : Instr) : List NOp :=
  Compile_SwizzleSrc_ops env i 1 ++ Compile_SwizzleSrc_ops env i 2 ++
    Compile_SwizzleSrc_ops env i 3 ++ [NOp.sanMul, NOp.addps] ++
    Compile_DestEnable_ops env i

/-- Per-opcode emission for the handlers that do not recursively compile
blocks, together with the fresh-label counter they consume.  `ifH` and
`loopH` are dispatched to `Compile_IF`/`Compile_LOOP` instead and never
reach this function. -/
def handlerOps (h : Handler) (env : CEnv) (i : Instr) (fresh : Nat) :
    List NOp × Nat :=
  match h with
  | .add => (Compile_ADD_ops env i, fresh)
  | .dp3 => (Compile_DP3_ops env i, fresh)
  | .dp4 => (Compile_DP4_ops env i, fresh)
  | .dph => (Compile_DPH_ops env i, fresh)
  | .ex2 => (Compile_EX2_ops env i, fresh)
  | .lg2 => (Compile_LG2_ops env i, fresh)
  | .mul => (Compile_MUL_ops env i, fresh)
  | .sge => (Compile_SGE_ops env i, fresh)
  | .slt => (Compile_SLT_ops env i, fresh)
  | .flr => (Compile_FLR_ops env i, fresh)
  | .maxH => (Compile_MAX_ops env i, fresh)
  | .minH => (Compile_MIN_ops env i, fresh)
  | .rcp => (Compile_RCP_ops env i, fresh)
  | .rsq => (Compile_RSQ_ops env i, fresh)
  | .mova => (Compile_MOVA_ops env i, fresh)
  | .mov => (Compile_MOV_ops env i, fresh)
  | .nop => ([], fresh)
  | .endH => ([NOp.endRet], fresh)
  | .call => (Compile_CALL_ops i, fresh)
  | .callc =>
    ([NOp.setZCond (condSpecOf i), NOp.jz (Lbl.loc fresh)] ++ Compile_CALL_ops i ++
       [NOp.bind (Lbl.loc fresh)], fresh + 1)
  | .callu =>
    ([NOp.setZUniform i.flow.bool_uniform_id, NOp.jz (Lbl.loc fresh)] ++
       Compile_CALL_ops i ++ [NOp.bind (Lbl.loc fresh)], fresh + 1)
  | .ifH => ([], fresh)
  | .loopH => ([], fresh)
  | .jmp => (Compile_JMP_ops i, fresh)
  | .cmp => (Compile_CMP_ops env i 0 0, fresh)
  | .mad => (Compile_MAD_ops env i, fresh)

/-- `JitShader::FindReturnOffsets` (lines 814-834): scan the whole
program for call-class instructions, record each synthetic return offset
`dest_offset + num_instructions`, and sort ascending for the binary
search.  (`std::sort` on naturals is modelled by insertion sort.) -/
def FindReturnOffsets (prog : List Instr) : List Nat :=
  List.insertionSort (· ≤ ·)
    (prog.filterMap fun i =>
      if isCallClass i.opcode then some (i.flow.dest_offset + i.flow.num_instructions)
      else none)

/-- Half-interval search, fuel-indexed (each round strictly shrinks the
interval, so fuel equal to the list length suffices). -/
def binarySearchAux (x : Nat) : Nat → List Nat → Bool
  | 0, _ => false
  | _, [] => false
  | fuel + 1, a :: as =>
    if (a :: as).getD ((a :: as).length / 2) 0 < x then
      binarySearchAux x fuel ((a :: as).drop ((a :: as).length / 2 + 1))
    else if x < (a :: as).getD ((a :: as).length / 2) 0 then
      binarySearchAux x fuel ((a :: as).take ((a :: as).length / 2))
    else true

/-- `std::binary_search` over the sorted `return_offsets` vector
(line 793). -/
def binarySearch (x : Nat) (l : List Nat) : Bool := binarySearchAux x l.length l

/-! ## The compile pass

`Compile_Block` and `Compile_NextInstr` (lines 774-812) drive the pass;
`Compile_IF` and `Compile_LOOP` recursively compile sub-blocks.  The
mutual recursion is fuel-indexed; every recursive call strictly decreases
the fuel, and the top-level entry supplies fuel that dominates the pass
(the program counter strictly increases at every `Compile_NextInstr`). -/

/-- The head of `JitShader::Compile_IF` (lines 691-701): the
backward-target `Compile_Assert`, the condition evaluation (IFU reads
the boolean uniform, IFC the flag condition), and `jz l_else`.  The two
local labels `l_else`/`l_endif` are numbered `st.fresh` and
`st.fresh + 1`; `assertEmit` only appends operations, so `st.fresh` is
also the fresh counter after the assert. -/
def Compile_IF_head (i : Instr) (st : CState) : CState :=
  let st1 := assertEmit (decide (st.pc ≤ i.flow.dest_offset)) .backwardIf st
  let condOps :=
    if i.opcode == 0x27 then [NOp.setZUniform i.flow.bool_uniform_id]
    else if i.opcode == 0x28 then [NOp.setZCond (condSpecOf i)]
    else []
  { st1 with
    fresh := st.fresh + 2
    ops := st1.ops ++ condOps ++ [NOp.jz (Lbl.loc st.fresh)] }

/-- The head of `JitShader::Compile_LOOP` (lines 723-744): the two
`Compile_Assert` checks (backward target, nested loop — the second reads
the `looping` member, which the asserts do not modify), then the
register decode block, `looping := true`, and the binding of
`l_loop_start` (local label number `st.fresh`). -/
def Compile_LOOP_head (i : Instr) (st : CState) : CState :=
  let st2 := assertEmit (!st.looping) .nestedLoop
    (assertEmit (decide (st.pc ≤ i.flow.dest_offset)) .backwardLoop st)
  { st2 with
    looping := true
    fresh := st.fresh + 1
    ops := st2.ops ++ [NOp.loopInit i.flow.int_uniform_id, NOp.bind (Lbl.loc st.fresh)] }

/-- The head of `JitShader::Compile_NextInstr` (lines 793-799): emit the
return check when the current offset is in the precomputed set (decided
by `std::binary_search`), bind this offset's label, and increment the
program counter. -/
def nextPrefix (env : CEnv) (st : CState) : CState :=
  { st with
    pc := st.pc + 1
    ops := st.ops ++
      (if binarySearch st.pc env.return_offsets then [NOp.retChk st.pc] else []) ++
      [NOp.bind (Lbl.instr st.pc)] }

mutual

/-- `JitShader::Compile_IF` (lines 690-720).  Note the backward-target
check runs through `Compile_Assert`, which emits a run-time diagnostic
call and continues compiling. -/
def Compile_IF : Nat → CEnv → Instr → CState → CState
  | 0, _, _, st => st
  | fuel + 1, env, i, st =>
    let st1 := Compile_Block fuel env i.flow.dest_offset (Compile_IF_head i st)
    if i.flow.num_instructions == 0 then
      { st1 with ops := st1.ops ++ [NOp.bind (Lbl.loc st.fresh)] }
    else
      let st3 := Compile_Block fuel env
        (i.flow.dest_offset + i.flow.num_instructions)
        { st1 with ops := st1.ops ++
            [NOp.jmpL (Lbl.loc (st.fresh + 1)), NOp.bind (Lbl.loc st.fresh)] }
      { st3 with ops := st3.ops ++ [NOp.bind (Lbl.loc (st.fresh + 1))] }

/-- `JitShader::Compile_LOOP` (lines 722-753).  Both structural checks
run through `Compile_Assert` (run-time diagnostic, no abort); the body is
compiled once between the decode block and the decrement-and-branch
tail. -/
def Compile_LOOP : Nat → CEnv → Instr → CState → CState
  | 0, _, _, st => st
  | fuel + 1, env, i, st =>
    let st1 := Compile_Block fuel env (i.flow.dest_offset + 1)
      (Compile_LOOP_head i st)
    { st1 with looping := false, ops := st1.ops ++ [NOp.loopTail (Lbl.loc st.fresh)] }

/-- `JitShader::Compile_NextInstr` (lines 792-812): emit the return-check
prefix, fetch the instruction at the current offset, and dispatch through
`instr_table`; a null entry logs a critical message and generates
nothing. -/
def Compile_NextInstr : Nat → CEnv → CState → CState
  | 0, _, st => st
  | fuel + 1, env, st =>
    let i := env.prog.getD st.pc default
    let st := nextPrefix env st
    match instr_table.getD i.opcode none with
    | none => { st with logs := st.logs ++ [LogMsg.unhandled i.opcode] }
    | some .ifH => Compile_IF fuel env i st
    | some .loopH => Compile_LOOP fuel env i st
    | some h =>
      { st with ops := st.ops ++ (handlerOps h env i st.fresh).1,
                fresh := (handlerOps h env i st.fresh).2 }

/-- `JitShader::Compile_Block` (lines 774-778): compile instructions
while the program counter is below `endOff`. -/
def Compile_Block : Nat → CEnv → Nat → CState → CState
  | 0, _, _, st => st
  | fuel + 1, env, endOff, st =>
    if st.pc < endOff then Compile_Block fuel env endOff (Compile_NextInstr fuel env st)
    else st

end

/-- Fuel that dominates one full pass: the program counter strictly
increases at every `Compile_NextInstr`, and the nesting depth of the
block recursion is bounded by the program length. -/
def compileFuel (prog : List Instr) : Nat := (prog.length + 2) * (prog.length + 2)

/-- `JitShader::Compile` (lines 836-882): reset state, precompute the
Return-Offset Set, emit the prologue and the entry jump, then compile the
whole program. -/
def Compile (prog : List Instr) (swz : Nat → SwizzlePattern) (sse41 : Bool) : CState :=
  let env : CEnv :=
    { prog := prog, swz := swz, sse41 := sse41,
      return_offsets := FindReturnOffsets prog }
  let st0 : CState :=
    { pc := 0, looping := false, fresh := 0,
      ops := [NOp.prologue, NOp.jmpEntry], logs := [] }
  Compile_Block (compileFuel prog) env prog.length st0

/-! ## Operational semantics of the emitted stack/control operations

A small-step machine over an emitted operation list, tracking the native
stack (as pushed 8-byte slots), the ZF flag, the condition registers and
the loop registers.  SIMD and memory operations have no stack or control
effect and simply advance.  `mstep` returns `none` when execution leaves
the modelled code (falling off the list, the entry jump, or a `ret` into
a non-return-address slot). -/

/-- One 8-byte native stack slot: a return address pushed by `call`, or
a data quadword pushed by `push`. -/
inductive StackV where
  | retAddr (ip : Nat) : StackV
  | datum (v : Nat) : StackV
deriving DecidableEq, Repr

/-- Runtime machine state over an emitted operation list. -/
structure MState where
  ip : Nat
  stack : List StackV
  zf : Bool
  cond0 : Bool
  cond1 : Bool
  lcount : Nat
  lreg : Nat
  linc : Nat
  done : Bool
deriving DecidableEq, Repr

/-- Runtime environment: the uniform banks and the 32-bit view of a
native code address (read when a return-check compares a slot that holds
a native return address rather than a synthetic offset). -/
structure MEnv where
  boolUniform : Nat → Bool
  intUniform : Nat → Nat
  raVal : Nat → Nat

/-- The low 32 bits of a stack slot, as read by `cmp eax, imm`. -/
def val32 (env : MEnv) : StackV → Nat
  | .datum v => v % 2 ^ 32
  | .retAddr i => env.raVal i % 2 ^ 32

/-- Resolve a label to the position of its binding. -/
def findLabel (ops : List NOp) (l : Lbl) : Option Nat :=
  ops.findIdx? fun o => o == NOp.bind l

/-- The condition computed by Compile_EvaluateCondition: each component
flag is compared against its reference bit (the NXOR in lines 317-345),
and the two are combined by the flow-control operator. -/
def evalCondBool (c : CondSpec) (c0 c1 : Bool) : Bool :=
  match c.op with
  | .or => (c0 == c.refx) || (c1 == c.refy)
  | .and => (c0 == c.refx) && (c1 == c.refy)
  | .justX => c0 == c.refx
  | .justY => c1 == c.refy

/-- One machine step. -/
def mstep (env : MEnv) (ops : List NOp) (s : MState) : Option MState :=
  if s.done then none
  else
    match ops.get? s.ip with
    | none => none
    | some op =>
      match op with
      | .bind _ => some { s with ip := s.ip + 1 }
      | .logCall _ => some { s with ip := s.ip + 1 }
      | .push v => some { s with ip := s.ip + 1, stack := .datum v :: s.stack }
      | .callL l =>
        (findLabel ops l).map fun t =>
          { s with ip := t, stack := .retAddr (s.ip + 1) :: s.stack }
      | .addRsp n => some { s with ip := s.ip + 1, stack := s.stack.drop (n / 8) }
      | .retChk off =>
        match s.stack with
        | a :: b :: rest =>
          if val32 env b == off % 2 ^ 32 then
            match a with
            | .retAddr r => some { s with ip := r, stack := b :: rest }
            | .datum _ => none
          else some { s with ip := s.ip + 1 }
        | _ => none
      | .jz l =>
        if s.zf then (findLabel ops l).map fun t => { s with ip := t }
        else some { s with ip := s.ip + 1 }
      | .jnz l =>
        if s.zf then some { s with ip := s.ip + 1 }
        else (findLabel ops l).map fun t => { s with ip := t }
      | .jmpL l => (findLabel ops l).map fun t => { s with ip := t }
      | .setZCond c =>
        some { s with ip := s.ip + 1, zf := !(evalCondBool c s.cond0 s.cond1) }
      | .setZUniform uid => some { s with ip := s.ip + 1, zf := !(env.boolUniform uid) }
      | .endRet => some { s with done := true }
      | .loopInit uid =>
        let u := env.intUniform uid
        some
          { s with
            ip := s.ip + 1
            lreg := (u >>> 4) &&& 0xFF0
            linc := (u >>> 12) &&& 0xFF0
            lcount := (u &&& 0xFF) + 1 }
      | .loopTail l =>
        let reg := (s.lreg + s.linc) % 2 ^ 32
        let cnt := (s.lcount + (2 ^ 32 - 1)) % 2 ^ 32
        if cnt == 0 then some { s with ip := s.ip + 1, lreg := reg, lcount := cnt }
        else (findLabel ops l).map fun t => { s with ip := t, lreg := reg, lcount := cnt }
      | .jmpEntry => none
      | _ => some { s with ip := s.ip + 1 }

/-- Iterated stepping. -/
def msteps (env : MEnv) (ops : List NOp) : Nat → MState → Option MState
  | 0, s => some s
  | n + 1, s => (mstep env ops s).bind (msteps env ops n)

/-! ## Auxiliary predicate for the compile-pass invariants -/

/-- `Extends st st'` holds when `st'` was produced from `st` by appending
emitted operations, without decreasing the program counter, and every
appended return check carries an offset at least `st.pc`. -/
def Extends (st st' : CState) : Prop :=
  ∃ d, st'.ops = st.ops ++ d ∧ st.pc ≤ st'.pc ∧
    ∀ o, NOp.retChk o ∈ d → st.pc ≤ o

/-! ## Concrete inputs used by the counterexamples and witnesses -/

/-- A NOP instruction. -/
def nopI : Instr :=
  { opcode := 0x21, flow := default, operand_desc_id := 0, address_register_index := 0 }

/-- A LOOP instruction with the given target offset. -/
def loopI (dest : Nat) : Instr :=
  { opcode := 0x29,
    flow := { dest_offset := dest, num_instructions := 0, op := .or, refx := false,
              refy := false, bool_uniform_id := 0, int_uniform_id := 2 },
    operand_desc_id := 0, address_register_index := 0 }

/-- An IFC instruction with the given target offset. -/
def ifcI (dest : Nat) : Instr :=
  { opcode := 0x28,
    flow := { dest_offset := dest, num_instructions := 0, op := .or, refx := false,
              refy := false, bool_uniform_id := 0, int_uniform_id := 0 },
    operand_desc_id := 0, address_register_index := 0 }

/-- A CALL instruction with the given target offset and length. -/
def callI (dest num : Nat) : Instr :=
  { opcode := 0x24,
    flow := { dest_offset := dest, num_instructions := num, op := .or, refx := false,
              refy := false, bool_uniform_id := 0, int_uniform_id := 0 },
    operand_desc_id := 0, address_register_index := 0 }

/-- A program whose second instruction is a backward LOOP (target 0). -/
def backLoopProg : List Instr := [nopI, loopI 0]

/-- A program with a LOOP nested directly inside another LOOP. -/
def nestLoopProg : List Instr := [loopI 1, loopI 1]

/-- A program with one CALL of the two-instruction subroutine at 2..2,
so 3 is its synthetic return offset. -/
def callProg : List Instr := [callI 2 1, nopI, nopI, nopI]

/-- An all-default swizzle table. -/
def defaultSwz : Nat → SwizzlePattern := fun _ => default

/-- A compile environment over `callProg`, as `Compile` builds it. -/
def callEnv : CEnv :=
  { prog := callProg, swz := defaultSwz, sse41 := true,
    return_offsets := FindReturnOffsets callProg }

/-- A runtime environment with trivial uniform banks. -/
def mEnv0 : MEnv :=
  { boolUniform := fun _ => false, intUniform := fun _ => 0, raVal := fun _ => 0 }

/-- The emitted-operation list used by the call-balance witness: a CALL
sequence at 0..2 whose target label 2 binds at index 4, followed by the
subroutine's return check for offset 3. -/
def callOpsW : List NOp :=
  [NOp.push 3, NOp.callL (Lbl.instr 2), NOp.addRsp 8, NOp.endRet,
   NOp.bind (Lbl.instr 2), NOp.retChk 3]

/-- An initial machine state at instruction-pointer 0 with empty stack. -/
def mSt0 : MState :=
  { ip := 0, stack := [], zf := false, cond0 := false, cond1 := false,
    lcount := 0, lreg := 0, linc := 0, done := false }

/-- Sentinel lane vectors for the masked-store witnesses. -/
def sentinelN : Vec4 Nat := fun j => 100 + j.val

def resultN : Vec4 Nat := fun j => 200 + j.val

def sentinelF : Vec4 F32 := fun j => F32.fin true (100 + j.val)

def sourceF : Vec4 F32 := fun j => F32.fin false (7 + j.val)

/-! # Theorems -/

/-! ## C3: the sanitized multiply -/

/-- C3 counterexample.  The claim states that a lane with exactly one NaN
factor yields 0 and that lanes with no NaN factor yield the IEEE product.
Both parts fail on the code: `NaN * 5` yields NaN (not 0), and
`0 * infinity` — with no NaN factor — yields 0 although its IEEE product
is NaN. -/
theorem C3_counterexample :
    sanitizedMul F32.nan (F32.fin false 5) = F32.nan ∧
    F32.nan ≠ F32.fin false 0 ∧
    (F32.fin false 5).isNaN = false ∧
    sanitizedMul (F32.fin false 0) (F32.inf false) = F32.fin false 0 ∧
    f32mul (F32.fin false 0) (F32.inf false) = F32.nan := by
  refine ⟨by decide, by decide, by decide, by decide, by decide⟩

/-- C3 (amended): in every lane where at least one factor is NaN
(exactly one or both), the sanitized multiply returns the NaN product;
in lanes where neither factor is NaN but the IEEE product is NaN (zero
times infinity) it returns +0; in the remaining lanes it returns the
ordinary IEEE product. -/
theorem C3_amended_sanitized_mul (a b : F32) :
    ((a.isNaN || b.isNaN) = true → sanitizedMul a b = F32.nan) ∧
    ((a.isNaN || b.isNaN) = false → (f32mul a b).isNaN = true →
      sanitizedMul a b = F32.fin false 0) ∧
    ((a.isNaN || b.isNaN) = false → (f32mul a b).isNaN = false →
      sanitizedMul a b = f32mul a b) := by
  refine ⟨fun h => ?_, fun h h2 => ?_, fun h h2 => ?_⟩ <;>
    cases a <;> cases b <;>
      simp_all [sanitizedMul, cmpordLane, cmpunordLane, f32mul, F32.isNaN]

/-- C3 witness: concrete instances for each amended case. -/
theorem C3_witness :
    sanitizedMul F32.nan F32.nan = F32.nan ∧
    sanitizedMul (F32.fin true 0) (F32.inf true) = F32.fin false 0 ∧
    sanitizedMul (F32.fin false 2) (F32.fin true 3) = F32.fin true 6 := by
  refine ⟨(C3_amended_sanitized_mul F32.nan F32.nan).1 (by decide),
    (C3_amended_sanitized_mul (F32.fin true 0) (F32.inf true)).2.1 (by decide) (by decide),
    ?_⟩
  have h := (C3_amended_sanitized_mul (F32.fin false 2) (F32.fin true 3)).2.2
    (by decide) (by decide)
  rw [h]
  simp only [f32mul, F32.fin.injEq]
  norm_num

/-! ## C5: equivalence of the two masked-merge paths -/

/-- C5: for every write mask and every pair of result and prior
destination lane values (of any lane type), the SSE4.1 `blendps` merge
and the unpack/shuffle manual merge produce identical destination
vectors. -/
theorem C5_blend_shuffle_equiv (α : Type) (m : Nat) (hm : m < 16)
    (res prior : Vec4 α) (i : Fin 4) :
    destEnableBlend m prior res i = destEnableShuffle m prior res i := by
  interval_cases m <;> fin_cases i <;> rfl

/-- C5 witness: both paths agree on a concrete mask and concrete lanes. -/
theorem C5_witness :
    destEnableBlend 10 sentinelN resultN 0 = destEnableShuffle 10 sentinelN resultN 0 ∧
    destEnableBlend 10 sentinelN resultN 1 = destEnableShuffle 10 sentinelN resultN 1 ∧
    destEnableBlend 10 sentinelN resultN 2 = destEnableShuffle 10 sentinelN resultN 2 ∧
    destEnableBlend 10 sentinelN resultN 3 = destEnableShuffle 10 sentinelN resultN 3 :=
  ⟨C5_blend_shuffle_equiv Nat 10 (by decide) resultN sentinelN 0,
   C5_blend_shuffle_equiv Nat 10 (by decide) resultN sentinelN 1,
   C5_blend_shuffle_equiv Nat 10 (by decide) resultN sentinelN 2,
   C5_blend_shuffle_equiv Nat 10 (by decide) resultN sentinelN 3⟩

/-! ## C4: masked destination store and the MOV round trip -/

/-- C4: for every destination write mask, the destination store writes
the result to exactly the mask-enabled lanes and leaves disabled lanes
at their prior value (with the all-enabled mask the result is stored
directly); the full-mask emission is a single store; and MOV with the
identity selector and no negation reproduces the source in the enabled
lanes while disabled lanes keep their pre-seeded value. -/
theorem C4_masked_store :
    (∀ (α : Type) (sse41 : Bool) (m : Nat), m < 16 → ∀ (prior res : Vec4 α) (i : Fin 4),
        destEnableValue sse41 m prior res i =
          if destComponentEnabled m i.val then res i else prior i) ∧
    (∀ env i, (env.swz i.operand_desc_id).dest_mask = 0xf →
        Compile_DestEnable_ops env i = [NOp.storeDst]) ∧
    (∀ (sse41 : Bool) (m : Nat), m < 16 → ∀ (v prior : Vec4 F32) (i : Fin 4),
        movValue sse41 0x1b false m v prior i =
          if destComponentEnabled m i.val then v i else prior i) := by
  have base : ∀ (α : Type) (sse41 : Bool) (m : Nat), m < 16 →
      ∀ (prior res : Vec4 α) (i : Fin 4),
      destEnableValue sse41 m prior res i =
        if destComponentEnabled m i.val then res i else prior i := by
    intro α sse41 m hm prior res i
    interval_cases m <;> cases sse41 <;> fin_cases i <;> rfl
  refine ⟨base, fun env i h => ?_, fun sse41 m hm v prior i => ?_⟩
  · simp [Compile_DestEnable_ops, h]
  · have : swizzleSrcValue 0x1b false v = v := rfl
    simpa [movValue, this] using base F32 sse41 m hm prior v i

/-- C4 witness: a concrete mask with a pre-seeded sentinel destination. -/
theorem C4_witness :
    destEnableValue true 10 sentinelN resultN 0 = resultN 0 ∧
    destEnableValue true 10 sentinelN resultN 1 = sentinelN 1 ∧
    destEnableValue true 10 sentinelN resultN 2 = resultN 2 ∧
    destEnableValue true 10 sentinelN resultN 3 = sentinelN 3 ∧
    movValue false 0x1b false 10 sourceF sentinelF 0 = sourceF 0 ∧
    movValue false 0x1b false 10 sourceF sentinelF 1 = sentinelF 1 := by
  have h := C4_masked_store
  refine ⟨?_, ?_, ?_, ?_, ?_, ?_⟩
  · rw [h.1 Nat true 10 (by decide) sentinelN resultN 0]; rfl
  · rw [h.1 Nat true 10 (by decide) sentinelN resultN 1]; rfl
  · rw [h.1 Nat true 10 (by decide) sentinelN resultN 2]; rfl
  · rw [h.1 Nat true 10 (by decide) sentinelN resultN 3]; rfl
  · rw [h.2.2 false 10 (by decide) sourceF sentinelF 0]; rfl
  · rw [h.2.2 false 10 (by decide) sourceF sentinelF 1]; rfl

/-! ## C7: MAX and MIN NaN policy -/

/-- C7: in every lane where either operand is NaN, `maxps`/`minps`
return the second operand of the emitted instruction, so MAX(NaN, x)
yields x and MAX(x, NaN) yields NaN; in NaN-free lanes they return an
operand that is the numeric maximum (resp. minimum) of the two. -/
theorem C7_max_min_nan :
    (∀ a b : F32, (a.isNaN || b.isNaN) = true →
        maxpsLane a b = b ∧ minpsLane a b = b) ∧
    (∀ a b : F32, a.isNaN = false → b.isNaN = false →
        (maxpsLane a b = a ∨ maxpsLane a b = b) ∧
        a.toVal ≤ (maxpsLane a b).toVal ∧ b.toVal ≤ (maxpsLane a b).toVal ∧
        (minpsLane a b = a ∨ minpsLane a b = b) ∧
        (minpsLane a b).toVal ≤ a.toVal ∧ (minpsLane a b).toVal ≤ b.toVal) := by
  constructor
  · intro a b h
    have hc1 : cmpltLane b a = false := by
      simp only [cmpltLane]
      rcases Bool.or_eq_true_iff.mp h with h1 | h1 <;> simp [h1, Bool.or_comm]
    have hc2 : cmpltLane a b = false := by
      simp only [cmpltLane]
      rcases Bool.or_eq_true_iff.mp h with h1 | h1 <;> simp [h1, Bool.or_comm]
    simp [maxpsLane, minpsLane, hc1, hc2]
  · intro a b ha hb
    have hlt : ∀ x y : F32, x.isNaN = false → y.isNaN = false →
        cmpltLane x y = decide (x.toVal < y.toVal) := by
      intro x y hx hy
      simp [cmpltLane, hx, hy]
    rw [maxpsLane, minpsLane, hlt b a hb ha, hlt a b ha hb]
    by_cases h1 : b.toVal < a.toVal <;> by_cases h2 : a.toVal < b.toVal <;>
      simp [h1, h2, le_of_lt, le_of_not_lt]

/-- C7 witness: the claim's own examples, MAX(NaN, 5) = 5 and
MAX(5, NaN) = NaN, plus an ordered lane. -/
theorem C7_witness :
    maxpsLane F32.nan (F32.fin false 5) = F32.fin false 5 ∧
    maxpsLane (F32.fin false 5) F32.nan = F32.nan ∧
    maxpsLane (F32.fin true 2) (F32.fin false 1) = F32.fin false 1 ∧
    minpsLane (F32.fin true 2) (F32.fin false 1) = F32.fin true 2 := by
  refine ⟨((C7_max_min_nan.1 F32.nan (F32.fin false 5)) (by decide)).1,
    ((C7_max_min_nan.1 (F32.fin false 5) F32.nan) (by decide)).1, ?_, ?_⟩
  · rcases (C7_max_min_nan.2 (F32.fin true 2) (F32.fin false 1) (by decide) (by decide)).1
      with h | h
    · exact absurd ((C7_max_min_nan.2 (F32.fin true 2) (F32.fin false 1) (by decide)
        (by decide)).2.2.1.trans_eq (congrArg F32.toVal h)) (by decide)
    · exact h
  · rcases (C7_max_min_nan.2 (F32.fin true 2) (F32.fin false 1) (by decide)
      (by decide)).2.2.2.1 with h | h
    · exact h
    · exact absurd ((C7_max_min_nan.2 (F32.fin true 2) (F32.fin false 1) (by decide)
        (by decide)).2.2.2.2.1.trans_eq' (congrArg F32.toVal h).symm) (by decide)

/-! ## C10: MOVA frame conditions -/

/-- Compile_SwizzleSrc emits loads, shuffles and sign flips only — never
a store to per-invocation output state. -/
theorem storeDst_not_mem_swizzle (env : CEnv) (i : Instr) (n : Nat) :
    NOp.storeDst ∉ Compile_SwizzleSrc_ops env i n := by
  simp only [Compile_SwizzleSrc_ops]
  split <;> split <;> simp

/-- C10: MOVA writes only the mask-selected address accumulators: with
only lane 0 enabled, accumulator 1 is unchanged (and symmetrically);
with neither of the first two lanes enabled no code is emitted at all;
and MOVA never emits a store to the per-invocation output state. -/
theorem C10_mova_frame :
    (∀ (v : Vec4 F32) (a0 a1 : Int), (movaRegs true false v a0 a1).2 = a1) ∧
    (∀ (v : Vec4 F32) (a0 a1 : Int), (movaRegs false true v a0 a1).1 = a0) ∧
    (∀ (v : Vec4 F32) (a0 a1 : Int), movaRegs false false v a0 a1 = (a0, a1)) ∧
    (∀ env i,
        destComponentEnabled ((env.swz i.operand_desc_id).dest_mask) 0 = false →
        destComponentEnabled ((env.swz i.operand_desc_id).dest_mask) 1 = false →
        Compile_MOVA_ops env i = []) ∧
    (∀ env i, NOp.storeDst ∉ Compile_MOVA_ops env i) := by
  refine ⟨fun v a0 a1 => rfl, fun v a0 a1 => rfl, fun v a0 a1 => rfl,
    fun env i h0 h1 => ?_, fun env i hmem => ?_⟩
  · simp [Compile_MOVA_ops, h0, h1]
  · revert hmem
    simp only [Compile_MOVA_ops]
    split
    · simp
    · split <;> (try split) <;>
        simp [storeDst_not_mem_swizzle env i 1]

/-- C10 witness: a concrete source vector and accumulators. -/
theorem C10_witness :
    (movaRegs true false sourceF 111 222).2 = 222 ∧
    (movaRegs false true sourceF 111 222).1 = 111 ∧
    movaRegs false false sourceF 111 222 = (111, 222) ∧
    Compile_MOVA_ops callEnv nopI = [] ∧
    NOp.storeDst ∉ Compile_MOVA_ops callEnv (loopI 0) :=
  ⟨C10_mova_frame.1 sourceF 111 222,
   C10_mova_frame.2.1 sourceF 111 222,
   C10_mova_frame.2.2.1 sourceF 111 222,
   C10_mova_frame.2.2.2.1 callEnv nopI (by decide) (by decide),
   C10_mova_frame.2.2.2.2 callEnv (loopI 0)⟩

/-! ## C6: LOOP trip count and accumulator schedule -/

/-- Bits 4..11 of a natural number, as the mask `0xFF0` extracts them. -/
theorem and_FF0_eq (x : Nat) : x &&& 0xFF0 = x / 16 % 256 * 16 := by
  have h2 : x / 16 % 256 * 16 = ((x >>> 4) &&& (2 ^ 8 - 1)) <<< 4 := by
    rw [Nat.and_pow_two_sub_one_eq_mod, Nat.shiftRight_eq_div_pow,
      Nat.shiftLeft_eq]
  rw [h2]
  have h0 : (0xFF0 : Nat) = (2 ^ 8 - 1) <<< 4 := by decide
  rw [h0]
  apply Nat.eq_of_testBit_eq
  intro j
  simp only [Nat.testBit_and, Nat.testBit_shiftLeft, Nat.testBit_shiftRight,
    Nat.testBit_two_pow_sub_one, ge_iff_le]
  by_cases h4 : 4 ≤ j
  · have : 4 + (j - 4) = j := by omega
    rw [this]
    cases hx : x.testBit j <;> simp [h4]
  · simp [h4]

/-- The LOOP decode block extracts the three 8-bit fields of the integer
uniform: `count` is the low byte, `start` and `increment` the next two
bytes pre-scaled by 16. -/
theorem loopInitSt_fields (u : Nat) :
    loopInitSt u =
      { reg := u / 256 % 256 * 16, inc := u / 65536 % 256 * 16,
        count := u % 256 + 1, trace := [] } := by
  simp only [loopInitSt, and_FF0_eq]
  have h1 : u >>> 4 = u / 16 := by
    rw [Nat.shiftRight_eq_div_pow]
  have h2 : u >>> 12 = u / 4096 := by
    rw [Nat.shiftRight_eq_div_pow]
  have h3 : (0xFF : Nat) = 2 ^ 8 - 1 := by decide
  rw [h1, h2, h3, Nat.and_pow_two_sub_one_eq_mod,
    Nat.div_div_eq_div_mul, Nat.div_div_eq_div_mul]

/-- The do-while loop runs its body exactly `count` times when started
with a positive in-range count, observing the accumulator at
`reg + k * inc (mod 2 ^ 32)` on iteration `k`. -/
theorem loopRun_trace : ∀ (n : Nat) (s : LoopSt) (fuel : Nat),
    s.count = n + 1 → s.count < 2 ^ 32 → s.reg < 2 ^ 32 → n + 1 ≤ fuel →
    (loopRun fuel s).trace =
      s.trace ++ (List.range (n + 1)).map fun k => (s.reg + k * s.inc) % 2 ^ 32 := by
  intro n
  induction n with
  | zero =>
    intro s fuel hc hcb hr hf
    obtain ⟨f, rfl⟩ : ∃ f, fuel = f + 1 := ⟨fuel - 1, by omega⟩
    have hc0 : (loopStep (loopBody s)).count = 0 := by
      simp only [loopStep, loopBody, hc]
      norm_num
    rw [loopRun]
    simp only [hc0, if_pos]
    simp [loopStep, loopBody, List.range_succ, Nat.mod_eq_of_lt hr]
    omega
  | succ n ih =>
    intro s fuel hc hcb hr hf
    obtain ⟨f, rfl⟩ : ∃ f, fuel = f + 1 := ⟨fuel - 1, by omega⟩
    have hc1 : (loopStep (loopBody s)).count = n + 1 := by
      simp only [loopStep, loopBody, hc]
      have e : n + 1 + 1 + (2 ^ 32 - 1) = (n + 1) + 2 ^ 32 := by omega
      rw [e, Nat.add_mod_right, Nat.mod_eq_of_lt (by omega)]
    have hrec : loopRun (f + 1) s = loopRun f (loopStep (loopBody s)) := by
      rw [loopRun]
      simp only [hc1]
      norm_num
    rw [hrec, ih (loopStep (loopBody s)) f hc1 (by rw [hc1]; omega)
      (by simp only [loopStep, loopBody]; exact Nat.mod_lt _ (by norm_num)) (by omega)]
    simp only [loopStep, loopBody]
    conv_rhs => rw [show n + 1 + 1 = (n + 1) + 1 from rfl, List.range_succ_eq_map]
    rw [List.map_cons, List.map_map]
    simp only [Nat.zero_mul, Nat.add_zero, Nat.mod_eq_of_lt hr, List.append_assoc,
      List.singleton_append]
    refine congrArg (fun t => s.trace ++ s.reg :: t) ?_
    apply List.map_congr_left
    intro k _
    simp only [Function.comp_apply, Nat.mod_add_mod, Nat.succ_eq_add_one]
    have harg : s.reg + s.inc + k * s.inc = s.reg + (k + 1) * s.inc := by ring
    rw [harg]

/-- C6: a LOOP whose integer uniform packs `(count, start, increment)`
as its three low bytes executes its body exactly `count + 1` times, with
the accumulator starting at `start * 16` and advancing by
`increment * 16` after each iteration. -/
theorem C6_loop_trip_count (u fuel : Nat) (hf : u % 256 + 1 ≤ fuel) :
    (loopRun fuel (loopInitSt u)).trace =
      (List.range (u % 256 + 1)).map
        (fun k => (u / 256 % 256 * 16 + k * (u / 65536 % 256 * 16)) % 2 ^ 32) ∧
    (loopRun fuel (loopInitSt u)).trace.length = u % 256 + 1 := by
  have hreg : u / 256 % 256 * 16 < 2 ^ 32 := by
    have h256 : u / 256 % 256 < 256 := Nat.mod_lt _ (by norm_num)
    omega
  have h : (loopRun fuel (loopInitSt u)).trace =
      (List.range (u % 256 + 1)).map
        (fun k => (u / 256 % 256 * 16 + k * (u / 65536 % 256 * 16)) % 2 ^ 32) := by
    rw [loopInitSt_fields]
    have h2 := loopRun_trace (u % 256)
      { reg := u / 256 % 256 * 16, inc := u / 65536 % 256 * 16,
        count := u % 256 + 1, trace := [] } fuel rfl
      (by simp only; have := Nat.mod_lt u (y := 256) (by norm_num); omega)
      hreg hf
    simpa using h2
  refine ⟨h, ?_⟩
  rw [h]
  simp

/-- C6 witness: the spec's own example, `(count, start, increment) =
(3, 0, 1)` packed as `0x00010003`, runs exactly 4 iterations with the
accumulator at 0, 16, 32, 48. -/
theorem C6_witness :
    (loopRun 4 (loopInitSt 0x00010003)).trace = [0, 16, 32, 48] ∧
    (loopRun 4 (loopInitSt 0x00010003)).trace.length = 3 + 1 := by
  have h := C6_loop_trip_count 0x00010003 4 (by norm_num)
  constructor
  · rw [h.1]; rfl
  · rw [h.2]

/-! ## Invariants of the compile pass

No per-opcode handler emits a return check: `retChk` operations come only
from `Compile_Return` inside `Compile_NextInstr`. -/

theorem retChk_not_mem_swizzle (env : CEnv) (i : Instr) (n : Nat) (o : Nat) :
    NOp.retChk o ∉ Compile_SwizzleSrc_ops env i n := by
  simp only [Compile_SwizzleSrc_ops]
  split <;> split <;> simp

theorem retChk_not_mem_destEnable (env : CEnv) (i : Instr) (o : Nat) :
    NOp.retChk o ∉ Compile_DestEnable_ops env i := by
  simp only [Compile_DestEnable_ops]
  split <;> (try split) <;> simp

theorem handlerOps_no_retChk (h : Handler) (env : CEnv) (i : Instr) (fr o : Nat) :
    NOp.retChk o ∉ (handlerOps h env i fr).1 := by
  cases h <;>
    simp only [handlerOps, Compile_ADD_ops, Compile_DP3_ops, Compile_DP4_ops,
      Compile_DPH_ops, Compile_EX2_ops, Compile_LG2_ops, Compile_MUL_ops,
      Compile_SGE_ops, Compile_SLT_ops, Compile_FLR_ops, Compile_MAX_ops,
      Compile_MIN_ops, Compile_MOVA_ops, Compile_MOV_ops, Compile_RCP_ops,
      Compile_RSQ_ops, Compile_CMP_ops, Compile_CALL_ops, Compile_JMP_ops,
      Compile_MAD_ops] <;>
    (try split_ifs) <;>
    simp_all [retChk_not_mem_swizzle, retChk_not_mem_destEnable]

theorem Extends.refl (st : CState) : Extends st st :=
  ⟨[], by simp, le_refl _, by simp⟩

theorem Extends.trans {a b c : CState} (h1 : Extends a b) (h2 : Extends b c) :
    Extends a c := by
  obtain ⟨d1, ho1, hp1, hm1⟩ := h1
  obtain ⟨d2, ho2, hp2, hm2⟩ := h2
  refine ⟨d1 ++ d2, ?_, le_trans hp1 hp2, ?_⟩
  · rw [ho2, ho1, List.append_assoc]
  · intro o ho
    rcases List.mem_append.mp ho with h | h
    · exact hm1 o h
    · exact le_trans hp1 (hm2 o h)

theorem extends_assert (c : Bool) (m : AssertMsg) (st : CState) :
    Extends st (assertEmit c m st) := by
  unfold assertEmit
  split
  · exact Extends.refl st
  · exact ⟨[NOp.logCall m], rfl, le_refl _, by simp⟩

theorem assertEmit_pc (c : Bool) (m : AssertMsg) (st : CState) :
    (assertEmit c m st).pc = st.pc := by
  unfold assertEmit
  split <;> rfl

theorem extends_IF_head (i : Instr) (st : CState) :
    Extends st (Compile_IF_head i st) := by
  refine Extends.trans (extends_assert (decide (st.pc ≤ i.flow.dest_offset))
    .backwardIf st) ?_
  refine ⟨(if i.opcode == 0x27 then [NOp.setZUniform i.flow.bool_uniform_id]
    else if i.opcode == 0x28 then [NOp.setZCond (condSpecOf i)] else []) ++
      [NOp.jz (Lbl.loc st.fresh)], ?_, ?_, ?_⟩
  · simp [Compile_IF_head]
  · simp [Compile_IF_head]
  · intro o ho
    exfalso
    revert ho
    split_ifs <;> simp

theorem extends_LOOP_head (i : Instr) (st : CState) :
    Extends st (Compile_LOOP_head i st) := by
  refine Extends.trans (extends_assert (decide (st.pc ≤ i.flow.dest_offset))
    .backwardLoop st) (Extends.trans (extends_assert (!st.looping) .nestedLoop _) ?_)
  refine ⟨[NOp.loopInit i.flow.int_uniform_id, NOp.bind (Lbl.loc st.fresh)],
    ?_, ?_, ?_⟩
  · simp [Compile_LOOP_head]
  · simp [Compile_LOOP_head]
  · simp

theorem extends_nextPrefix (env : CEnv) (st : CState) :
    Extends st (nextPrefix env st) := by
  refine ⟨(if binarySearch st.pc env.return_offsets then [NOp.retChk st.pc] else []) ++
    [NOp.bind (Lbl.instr st.pc)], ?_, ?_, ?_⟩
  · simp [nextPrefix]
  · simp [nextPrefix]
  · intro o ho
    cases hc : binarySearch st.pc env.return_offsets <;> simp [hc] at ho
    simp [ho]

/-- Every compile function only appends emitted operations, never
decreases the program counter, and appends return checks only for
offsets at or above the starting program counter. -/
theorem compile_extends : ∀ fuel : Nat,
    (∀ env i st, Extends st (Compile_IF fuel env i st)) ∧
    (∀ env i st, Extends st (Compile_LOOP fuel env i st)) ∧
    (∀ env st, Extends st (Compile_NextInstr fuel env st)) ∧
    (∀ env e st, Extends st (Compile_Block fuel env e st)) := by
  intro fuel
  induction fuel with
  | zero =>
    exact ⟨fun _ _ st => Extends.refl st, fun _ _ st => Extends.refl st,
      fun _ st => Extends.refl st, fun _ _ st => Extends.refl st⟩
  | succ f ih =>
    obtain ⟨ihIF, ihLOOP, ihNI, ihBL⟩ := ih
    refine ⟨fun env i st => ?_, fun env i st => ?_, fun env st => ?_,
      fun env e st => ?_⟩
    · simp only [Compile_IF]
      split
      · exact Extends.trans (extends_IF_head i st)
          (Extends.trans (ihBL env _ _) ⟨[NOp.bind (Lbl.loc st.fresh)], rfl,
            le_refl _, by simp⟩)
      · refine Extends.trans (extends_IF_head i st) ?_
        refine Extends.trans (ihBL env i.flow.dest_offset (Compile_IF_head i st)) ?_
        set a := Compile_Block f env i.flow.dest_offset (Compile_IF_head i st) with ha
        refine Extends.trans (b := { a with ops := a.ops ++
          [NOp.jmpL (Lbl.loc (st.fresh + 1)), NOp.bind (Lbl.loc st.fresh)] })
          ⟨_, rfl, le_refl _, by simp⟩ ?_
        exact Extends.trans (ihBL env _ _)
          ⟨[NOp.bind (Lbl.loc (st.fresh + 1))], rfl, le_refl _, by simp⟩
    · simp only [Compile_LOOP]
      exact Extends.trans (extends_LOOP_head i st)
        (Extends.trans (ihBL env _ _)
          ⟨[NOp.loopTail (Lbl.loc st.fresh)], rfl, le_refl _, by simp⟩)
    · simp only [Compile_NextInstr]
      split
      · exact Extends.trans (extends_nextPrefix env st) ⟨[], by simp, le_refl _, by simp⟩
      · exact Extends.trans (extends_nextPrefix env st) (ihIF env _ _)
      · exact Extends.trans (extends_nextPrefix env st) (ihLOOP env _ _)
      · exact Extends.trans (extends_nextPrefix env st)
          ⟨(handlerOps _ env _ (nextPrefix env st).fresh).1, rfl, le_refl _,
            fun o ho => absurd ho (handlerOps_no_retChk _ env _ _ o)⟩
    · simp only [Compile_Block]
      split
      · exact Extends.trans (ihNI env st) (ihBL env e _)
      · exact Extends.refl st

/-- One step of `Compile_NextInstr` emits exactly the (conditional)
return check followed by the offset's label binding, before whatever the
dispatched handler emits; and the handler part contains return checks
only for strictly larger offsets. -/
theorem nextInstr_prefix (fuel : Nat) (env : CEnv) (st : CState) :
    ∃ rest,
      (Compile_NextInstr (fuel + 1) env st).ops =
        st.ops ++
          (if binarySearch st.pc env.return_offsets then [NOp.retChk st.pc] else []) ++
          [NOp.bind (Lbl.instr st.pc)] ++ rest ∧
      ∀ o, NOp.retChk o ∈ rest → st.pc + 1 ≤ o := by
  simp only [Compile_NextInstr]
  split
  · refine ⟨[], ?_, by simp⟩
    simp [nextPrefix]
  · obtain ⟨d, hops, hpc, hmem⟩ := (compile_extends fuel).1 env _ (nextPrefix env st)
    refine ⟨d, ?_, fun o ho => hmem o ho⟩
    rw [hops]
    simp [nextPrefix]
  · obtain ⟨d, hops, hpc, hmem⟩ :=
      (compile_extends fuel).2.1 env _ (nextPrefix env st)
    refine ⟨d, ?_, fun o ho => hmem o ho⟩
    rw [hops]
    simp [nextPrefix]
  · rename_i oh h hif hloop heq
    refine ⟨(handlerOps h env (env.prog.getD st.pc default) (nextPrefix env st).fresh).1,
      ?_, fun o ho => absurd ho (handlerOps_no_retChk h env _ _ o)⟩
    simp [nextPrefix]

/-- Correctness of the half-interval search: on a sorted list it decides
membership, given fuel at least the list length. -/
theorem binarySearch_mem_aux : ∀ (n : Nat) (l : List Nat), l.length ≤ n →
    List.Sorted (· ≤ ·) l → ∀ x, (binarySearchAux x n l = true ↔ x ∈ l) := by
  intro n
  induction n with
  | zero =>
    intro l hl _ x
    have hnil : l = [] := List.eq_nil_of_length_eq_zero (by omega)
    subst hnil
    simp [binarySearchAux]
  | succ n ih =>
    intro l hl hs x
    cases l with
    | nil => simp [binarySearchAux]
    | cons a as =>
      rw [binarySearchAux]
      have hmlt : (a :: as).length / 2 < (a :: as).length := by
        simp only [List.length_cons]
        omega
      have hget : (a :: as).getD ((a :: as).length / 2) 0 =
          (a :: as)[(a :: as).length / 2] := List.getD_eq_getElem (a :: as) 0 hmlt
      have hpw := List.pairwise_iff_getElem.mp hs
      split_ifs with h1 h2
      · rw [ih ((a :: as).drop ((a :: as).length / 2 + 1))
          (by simp only [List.length_drop, List.length_cons]; simp at hl; omega)
          (List.Pairwise.sublist (List.drop_sublist _ _) hs) x]
        rw [hget] at h1
        constructor
        · exact fun hmem => List.drop_subset _ _ hmem
        · intro hmem
          obtain ⟨i, hi, hix⟩ := List.mem_iff_getElem.mp hmem
          rcases Nat.lt_or_ge ((a :: as).length / 2) i with him | him
          · refine List.mem_iff_getElem?.mpr ⟨i - ((a :: as).length / 2 + 1), ?_⟩
            rw [List.getElem?_drop,
              show (a :: as).length / 2 + 1 + (i - ((a :: as).length / 2 + 1)) = i
                from by omega,
              List.getElem?_eq_getElem hi, hix]
          · exfalso
            rcases Nat.eq_or_lt_of_le him with heq | hlt
            · subst heq
              omega
            · have hle := hpw i ((a :: as).length / 2) hi hmlt hlt
              omega
      · rw [ih ((a :: as).take ((a :: as).length / 2))
          (by simp only [List.length_take, List.length_cons]; simp at hl; omega)
          (List.Pairwise.sublist (List.take_sublist _ _) hs) x]
        rw [hget] at h2
        constructor
        · exact fun hmem => List.take_subset _ _ hmem
        · intro hmem
          obtain ⟨i, hi, hix⟩ := List.mem_iff_getElem.mp hmem
          rcases Nat.lt_or_ge i ((a :: as).length / 2) with him | him
          · refine List.mem_iff_getElem?.mpr ⟨i, ?_⟩
            rw [List.getElem?_take_of_lt him, List.getElem?_eq_getElem hi, hix]
          · exfalso
            rcases Nat.eq_or_lt_of_le him with heq | hlt
            · subst heq
              omega
            · have hle := hpw ((a :: as).length / 2) i hmlt hi hlt
              omega
      · have hvx : (a :: as).getD ((a :: as).length / 2) 0 = x := by omega
        simp only [true_iff]
        rw [← hvx, hget]
        exact List.getElem_mem hmlt

/-- `std::binary_search` on a sorted vector decides membership. -/
theorem binarySearch_mem (l : List Nat) (hs : List.Sorted (· ≤ ·) l) (x : Nat) :
    binarySearch x l = true ↔ x ∈ l :=
  binarySearch_mem_aux l.length l (le_refl _) hs x

/-! ## C2: the return-offset protocol -/

/-- C2: the Return-Offset Set built by `FindReturnOffsets` is sorted and
holds exactly the synthetic return offsets (target + length) of the
call-class instructions; binary search of a sorted list decides
membership; `Compile_NextInstr` emits the return-check block immediately
before an offset's label exactly when the offset is in the precomputed
set, and never emits a check for an offset outside it; and the emitted
check compares the synthetic offset on top of the call stack with the
compiled offset, returning to the caller on equality and falling through
otherwise. -/
theorem C2_return_offset_protocol :
    (∀ prog : List Instr, List.Sorted (· ≤ ·) (FindReturnOffsets prog)) ∧
    (∀ (prog : List Instr) (o : Nat), o ∈ FindReturnOffsets prog ↔
      ∃ i ∈ prog, isCallClass i.opcode = true ∧
        o = i.flow.dest_offset + i.flow.num_instructions) ∧
    (∀ (l : List Nat) (x : Nat), List.Sorted (· ≤ ·) l →
      (binarySearch x l = true ↔ x ∈ l)) ∧
    (∀ fuel env st, binarySearch st.pc env.return_offsets = true →
      ∃ rest, (Compile_NextInstr (fuel + 1) env st).ops =
        st.ops ++ [NOp.retChk st.pc, NOp.bind (Lbl.instr st.pc)] ++ rest) ∧
    (∀ fuel env st, binarySearch st.pc env.return_offsets = false →
      NOp.retChk st.pc ∈ (Compile_NextInstr fuel env st).ops →
      NOp.retChk st.pc ∈ st.ops) ∧
    (∀ env ops (s : MState) off r v rest,
      s.done = false → ops.get? s.ip = some (NOp.retChk off) →
      s.stack = StackV.retAddr r :: StackV.datum v :: rest →
      v % 2 ^ 32 = off % 2 ^ 32 →
      mstep env ops s = some { s with ip := r, stack := StackV.datum v :: rest }) ∧
    (∀ env ops (s : MState) off a b rest,
      s.done = false → ops.get? s.ip = some (NOp.retChk off) →
      s.stack = a :: b :: rest → val32 env b ≠ off % 2 ^ 32 →
      mstep env ops s = some { s with ip := s.ip + 1 }) := by
  refine ⟨?_, ?_, ?_, ?_, ?_, ?_, ?_⟩
  · intro prog
    exact List.sorted_insertionSort _ _
  · intro prog o
    unfold FindReturnOffsets
    rw [List.Perm.mem_iff (List.perm_insertionSort _ _), List.mem_filterMap]
    constructor
    · rintro ⟨i, hip, hf⟩
      revert hf
      split_ifs with hc
      · intro hf
        exact ⟨i, hip, hc, by simp_all⟩
      · simp
    · rintro ⟨i, hip, hc, rfl⟩
      exact ⟨i, hip, by simp [hc]⟩
  · exact fun l x hs => binarySearch_mem l hs x
  · intro fuel env st hbs
    obtain ⟨rest, hops, _⟩ := nextInstr_prefix fuel env st
    rw [hbs] at hops
    refine ⟨rest, ?_⟩
    rw [hops]
    simp
  · intro fuel env st hbs hmem
    cases fuel with
    | zero => simpa [Compile_NextInstr] using hmem
    | succ f =>
      obtain ⟨rest, hops, hrest⟩ := nextInstr_prefix f env st
      rw [hops, hbs] at hmem
      simp only [List.append_nil, List.mem_append, List.mem_singleton,
        List.append_assoc, List.cons_append, List.nil_append, List.mem_cons] at hmem
      have himp : NOp.retChk st.pc ∈ rest → False := fun h => by
        have := hrest _ h
        omega
      have hbind : NOp.retChk st.pc = NOp.bind (Lbl.instr st.pc) → False := by simp
      tauto
  · intro env ops s off r v rest hdone hget hstack hveq
    rw [List.get?_eq_getElem?] at hget
    norm_num at hveq
    simp [mstep, hdone, hget, hstack, val32, hveq]
  · intro env ops s off a b rest hdone hget hstack hveq
    rw [List.get?_eq_getElem?] at hget
    simp only [val32] at hveq
    norm_num at hveq
    simp [mstep, hdone, hget, hstack, val32, hveq]

/-- C2 witness: the one-CALL program `callProg` (CALL 2..2, synthetic
return offset 3). -/
theorem C2_witness :
    List.Sorted (· ≤ ·) (FindReturnOffsets callProg) ∧
    (3 ∈ FindReturnOffsets callProg ↔ ∃ i ∈ callProg, isCallClass i.opcode = true ∧
      3 = i.flow.dest_offset + i.flow.num_instructions) ∧
    (binarySearch 3 [3] = true ↔ 3 ∈ [3]) ∧
    (∃ rest, (Compile_NextInstr 1 callEnv
        { pc := 3, looping := false, fresh := 0, ops := [], logs := [] }).ops =
      [] ++ [NOp.retChk 3, NOp.bind (Lbl.instr 3)] ++ rest) ∧
    mstep mEnv0 callOpsW
        { ip := 5, stack := [StackV.retAddr 2, StackV.datum 3], zf := false,
          cond0 := false, cond1 := false, lcount := 0, lreg := 0, linc := 0,
          done := false } =
      some { ip := 2, stack := [StackV.datum 3], zf := false, cond0 := false,
             cond1 := false, lcount := 0, lreg := 0, linc := 0, done := false } := by
  refine ⟨C2_return_offset_protocol.1 callProg, C2_return_offset_protocol.2.1 callProg 3,
    C2_return_offset_protocol.2.2.1 [3] 3 (by simp), ?_, ?_⟩
  · exact C2_return_offset_protocol.2.2.2.1 0 callEnv
      { pc := 3, looping := false, fresh := 0, ops := [], logs := [] } (by decide)
  · have h := C2_return_offset_protocol.2.2.2.2.2.1 mEnv0 callOpsW
      { ip := 5, stack := [StackV.retAddr 2, StackV.datum 3], zf := false,
        cond0 := false, cond1 := false, lcount := 0, lreg := 0, linc := 0,
        done := false } 3 2 3 [] rfl rfl rfl rfl
    exact h

/-! ## C8: unrecognized opcodes -/

/-- C8: the dispatch table has 64 entries; when the entry for the fetched
instruction's opcode is null, compiling that instruction emits no native
code beyond the offset's label binding (and the offset's return check,
which does not depend on the instruction), appends one critical log
message on the host side, and advances the program counter by one, so
compilation continues at the next offset. -/
theorem C8_unknown_opcode :
    instr_table.length = 64 ∧
    ∀ fuel env st,
      instr_table.getD (env.prog.getD st.pc default).opcode none = none →
      Compile_NextInstr (fuel + 1) env st =
        { st with
          pc := st.pc + 1
          ops := st.ops ++
            (if binarySearch st.pc env.return_offsets then [NOp.retChk st.pc] else []) ++
            [NOp.bind (Lbl.instr st.pc)]
          logs := st.logs ++ [LogMsg.unhandled (env.prog.getD st.pc default).opcode] } := by
  refine ⟨rfl, fun fuel env st htab => ?_⟩
  simp only [Compile_NextInstr, htab]
  rfl

/-- C8 witness: a one-instruction program with the undefined opcode 0x04. -/
theorem C8_witness :
    Compile_NextInstr 1
        { prog := [{ opcode := 4, flow := default, operand_desc_id := 0,
                     address_register_index := 0 }],
          swz := defaultSwz, sse41 := true, return_offsets := [] }
        { pc := 0, looping := false, fresh := 0, ops := [], logs := [] } =
      { pc := 1, looping := false, fresh := 0,
        ops := [NOp.bind (Lbl.instr 0)], logs := [LogMsg.unhandled 4] } := by
  have h := C8_unknown_opcode.2 0
    { prog := [{ opcode := 4, flow := default, operand_desc_id := 0,
                 address_register_index := 0 }],
      swz := defaultSwz, sse41 := true, return_offsets := [] }
    { pc := 0, looping := false, fresh := 0, ops := [], logs := [] } rfl
  rw [h]
  rfl

/-! ## C1: backward branches and nested loops -/

/-- Membership in the emitted operations is preserved by any later
emission. -/
theorem mem_of_extends {x : NOp} {a b : CState} (hx : x ∈ a.ops)
    (h : Extends a b) : x ∈ b.ops := by
  obtain ⟨d, hops, _, _⟩ := h
  rw [hops]
  exact List.mem_append_left _ hx

/-- C1 counterexample.  The claim states that a backward LOOP target or a
nested LOOP aborts the compilation with a fatal diagnostic, detected no
later than emission.  On both concrete programs the compilation runs to
completion (every instruction compiled, `program_counter` reaches the
end), the host-side log stays empty, and the only diagnostic is a call to
the critical-log routine embedded in the generated code — i.e. it would
be seen only at run time of the generated code. -/
theorem C1_counterexample :
    (Compile backLoopProg defaultSwz true).pc = 2 ∧
    (Compile backLoopProg defaultSwz true).logs = [] ∧
    NOp.logCall .backwardLoop ∈ (Compile backLoopProg defaultSwz true).ops ∧
    NOp.loopTail (Lbl.loc 0) ∈ (Compile backLoopProg defaultSwz true).ops ∧
    (Compile nestLoopProg defaultSwz true).pc = 2 ∧
    (Compile nestLoopProg defaultSwz true).logs = [] ∧
    NOp.logCall .nestedLoop ∈ (Compile nestLoopProg defaultSwz true).ops := by
  refine ⟨by decide, by decide, by decide, by decide, by decide, by decide, by decide⟩

/-- C1 (amended): a backward IF/LOOP target or a nested LOOP is detected
at compile time, but its only effect is that a call to the critical-log
routine is emitted into the generated code at that point (so the
diagnostic surfaces at run time of the generated code); the compilation
is not aborted and proceeds to emit the loop or branch code as usual. -/
theorem C1_amended_runtime_diagnostic (fuel : Nat) (env : CEnv) (i : Instr)
    (st : CState) :
    (i.flow.dest_offset < st.pc → st.looping = false →
      ∃ rest, (Compile_LOOP (fuel + 1) env i st).ops =
        st.ops ++ [NOp.logCall .backwardLoop, NOp.loopInit i.flow.int_uniform_id,
          NOp.bind (Lbl.loc st.fresh)] ++ rest) ∧
    (st.looping = true →
      NOp.logCall .nestedLoop ∈ (Compile_LOOP (fuel + 1) env i st).ops) ∧
    (i.flow.dest_offset < st.pc →
      NOp.logCall .backwardIf ∈ (Compile_IF (fuel + 1) env i st).ops) := by
  refine ⟨fun hdest hlp => ?_, fun hlp => ?_, fun hdest => ?_⟩
  · have hd : decide (st.pc ≤ i.flow.dest_offset) = false := by
      simp only [decide_eq_false_iff_not]
      omega
    obtain ⟨d, hops, _, _⟩ := (compile_extends fuel).2.2.2 env
      (i.flow.dest_offset + 1) (Compile_LOOP_head i st)
    refine ⟨d ++ [NOp.loopTail (Lbl.loc st.fresh)], ?_⟩
    simp only [Compile_LOOP]
    rw [hops]
    simp [Compile_LOOP_head, assertEmit, hd, hlp]
  · simp only [Compile_LOOP]
    have hmemHead : NOp.logCall .nestedLoop ∈ (Compile_LOOP_head i st).ops := by
      simp only [Compile_LOOP_head, assertEmit, hlp, Bool.not_true]
      split_ifs <;> simp_all
    have hmem1 := mem_of_extends hmemHead
      ((compile_extends fuel).2.2.2 env (i.flow.dest_offset + 1) (Compile_LOOP_head i st))
    exact List.mem_append_left _ hmem1
  · have hd : decide (st.pc ≤ i.flow.dest_offset) = false := by
      simp only [decide_eq_false_iff_not]
      omega
    have hmemHead : NOp.logCall .backwardIf ∈ (Compile_IF_head i st).ops := by
      simp [Compile_IF_head, assertEmit, hd]
    simp only [Compile_IF]
    split
    · have hmem1 := mem_of_extends hmemHead
        ((compile_extends fuel).2.2.2 env i.flow.dest_offset (Compile_IF_head i st))
      exact List.mem_append_left _ hmem1
    · set jb := [NOp.jmpL (Lbl.loc (st.fresh + 1)), NOp.bind (Lbl.loc st.fresh)] with hjb
      set sb := Compile_Block fuel env i.flow.dest_offset (Compile_IF_head i st) with hsb
      have hmem1 := mem_of_extends hmemHead
        ((compile_extends fuel).2.2.2 env i.flow.dest_offset (Compile_IF_head i st))
      have hmem2 : NOp.logCall .backwardIf ∈ (sb.ops ++ jb) :=
        List.mem_append_left _ hmem1
      have hmem3 := mem_of_extends (a := { sb with ops := sb.ops ++ jb }) hmem2
        ((compile_extends fuel).2.2.2 env
          (i.flow.dest_offset + i.flow.num_instructions) _)
      exact List.mem_append_left _ hmem3

/-- C1 witness for the amended theorem: the backward LOOP of
`backLoopProg` at offset 1 (program counter already 2), and a LOOP
compiled with the active-loop flag set. -/
theorem C1_witness :
    (∃ rest, (Compile_LOOP 1 callEnv (loopI 0)
        { pc := 2, looping := false, fresh := 0, ops := [], logs := [] }).ops =
      [] ++ [NOp.logCall .backwardLoop, NOp.loopInit 2, NOp.bind (Lbl.loc 0)] ++ rest) ∧
    NOp.logCall .nestedLoop ∈ (Compile_LOOP 1 callEnv (loopI 3)
        { pc := 2, looping := true, fresh := 0, ops := [], logs := [] }).ops ∧
    NOp.logCall .backwardIf ∈ (Compile_IF 1 callEnv (ifcI 0)
        { pc := 2, looping := false, fresh := 0, ops := [], logs := [] }).ops :=
  ⟨(C1_amended_runtime_diagnostic 0 callEnv (loopI 0)
      { pc := 2, looping := false, fresh := 0, ops := [], logs := [] }).1
      (by decide) rfl,
   (C1_amended_runtime_diagnostic 0 callEnv (loopI 3)
      { pc := 2, looping := true, fresh := 0, ops := [], logs := [] }).2.1 rfl,
   (C1_amended_runtime_diagnostic 0 callEnv (ifcI 0)
      { pc := 2, looping := false, fresh := 0, ops := [], logs := [] }).2.2
      (by decide)⟩

/-! ## C9: stack neutrality of compiled CALL sites -/

/-- Stepping distributes over addition of step counts. -/
theorem msteps_add (env : MEnv) (ops : List NOp) (a b : Nat) (s : MState) :
    msteps env ops (a + b) s = (msteps env ops a s).bind (msteps env ops b) := by
  induction a generalizing s with
  | zero => simp [msteps]
  | succ a ih =>
    have e : a + 1 + b = (a + b) + 1 := by omega
    rw [e]
    simp only [msteps]
    cases mstep env ops s with
    | none => simp
    | some s2 => simp [ih s2]

/-- C9: every compiled CALL site is the three-operation sequence
push synthetic offset / call target label / `add rsp, 8`, and CALLC and
CALLU wrap that same sequence in a conditional skip; executing the
sequence returns the native stack to its pre-call state whenever the
callee comes back to the instruction after the `call` with the synthetic
offset still on top (which is what the emitted return check produces,
last conjunct); when the condition of a conditional call is false the
whole sequence is skipped and the stack is untouched. -/
theorem C9_call_stack_balance :
    (∀ i : Instr, Compile_CALL_ops i =
      [NOp.push (i.flow.dest_offset + i.flow.num_instructions),
       NOp.callL (Lbl.instr i.flow.dest_offset), NOp.addRsp 8]) ∧
    (∀ env i fr, handlerOps .call env i fr = (Compile_CALL_ops i, fr)) ∧
    (∀ env i fr, handlerOps .callc env i fr =
      ([NOp.setZCond (condSpecOf i), NOp.jz (Lbl.loc fr)] ++ Compile_CALL_ops i ++
        [NOp.bind (Lbl.loc fr)], fr + 1)) ∧
    (∀ env i fr, handlerOps .callu env i fr =
      ([NOp.setZUniform i.flow.bool_uniform_id, NOp.jz (Lbl.loc fr)] ++
        Compile_CALL_ops i ++ [NOp.bind (Lbl.loc fr)], fr + 1)) ∧
    (∀ env ops (s0 : MState) v l t n s2,
      s0.done = false →
      ops.get? s0.ip = some (NOp.push v) →
      ops.get? (s0.ip + 1) = some (NOp.callL l) →
      ops.get? (s0.ip + 2) = some (NOp.addRsp 8) →
      findLabel ops l = some t →
      msteps env ops n
          { s0 with
            ip := t
            stack := StackV.retAddr (s0.ip + 2) :: StackV.datum v :: s0.stack } =
        some s2 →
      s2.ip = s0.ip + 2 → s2.stack = StackV.datum v :: s0.stack → s2.done = false →
      msteps env ops (n + 3) s0 = some { s2 with ip := s0.ip + 3, stack := s0.stack }) ∧
    (∀ env ops (s0 : MState) c k j,
      s0.done = false → ops.get? s0.ip = some (NOp.setZCond c) →
      ops.get? (s0.ip + 1) = some (NOp.jz (Lbl.loc k)) →
      findLabel ops (Lbl.loc k) = some j →
      evalCondBool c s0.cond0 s0.cond1 = false →
      msteps env ops 2 s0 = some { s0 with ip := j, zf := true }) ∧
    (∀ env ops (s0 : MState) uid k j,
      s0.done = false → ops.get? s0.ip = some (NOp.setZUniform uid) →
      ops.get? (s0.ip + 1) = some (NOp.jz (Lbl.loc k)) →
      findLabel ops (Lbl.loc k) = some j →
      env.boolUniform uid = false →
      msteps env ops 2 s0 = some { s0 with ip := j, zf := true }) ∧
    (∀ env ops (s : MState) off r v rest,
      s.done = false → ops.get? s.ip = some (NOp.retChk off) →
      s.stack = StackV.retAddr r :: StackV.datum v :: rest →
      v % 2 ^ 32 = off % 2 ^ 32 →
      mstep env ops s = some { s with ip := r, stack := StackV.datum v :: rest }) := by
  refine ⟨fun i => rfl, fun env i fr => rfl, fun env i fr => rfl, fun env i fr => rfl,
    ?_, ?_, ?_, ?_⟩
  · intro env ops s0 v l t n s2 hdone hp hc ha hfl hrun hip hstk hdone2
    have e : n + 3 = 2 + (n + 1) := by omega
    rw [e, msteps_add]
    have h2 : msteps env ops 2 s0 =
        some
          { s0 with
            ip := t
            stack := StackV.retAddr (s0.ip + 2) :: StackV.datum v :: s0.stack } := by
      rw [List.get?_eq_getElem?] at hp hc
      simp [msteps, mstep, hdone, hp, hc, hfl]
    rw [h2, Option.some_bind, msteps_add env ops n 1, hrun, Option.some_bind]
    rw [List.get?_eq_getElem?] at ha
    have ha2 : ops[s2.ip]? = some (NOp.addRsp 8) := by
      rw [hip]
      exact ha
    simp [msteps, mstep, hdone2, ha, ha2, hstk, hip]
  · intro env ops s0 c k j hdone h1 h2 hfl hcond
    rw [List.get?_eq_getElem?] at h1 h2
    simp [msteps, mstep, hdone, h1, h2, hcond, hfl]
  · intro env ops s0 uid k j hdone h1 h2 hfl hcond
    rw [List.get?_eq_getElem?] at h1 h2
    simp [msteps, mstep, hdone, h1, h2, hcond, hfl]
  · intro env ops s off r v rest hdone hget hstack hveq
    rw [List.get?_eq_getElem?] at hget
    norm_num at hveq
    simp [mstep, hdone, hget, hstack, val32, hveq]

/-- C9 witness: a concrete CALL round trip on `callOpsW`: push 3, call
the label at index 4, the callee's return check matches and returns, the
cleanup drops the synthetic offset, and the final stack is the initial
(empty) one. -/
theorem C9_witness :
    msteps mEnv0 callOpsW 5 mSt0 =
      some { ip := 3, stack := [], zf := false, cond0 := false, cond1 := false,
             lcount := 0, lreg := 0, linc := 0, done := false } := by
  have h := C9_call_stack_balance.2.2.2.2.1 mEnv0 callOpsW mSt0 3 (Lbl.instr 2) 4 2
    { ip := 2, stack := [StackV.datum 3], zf := false, cond0 := false,
      cond1 := false, lcount := 0, lreg := 0, linc := 0, done := false }
    rfl rfl rfl rfl rfl (by decide) rfl rfl rfl
  exact h

end ShaderJit
